import Mathlib

/-!
# poppr `bitwise_distance.c`: zygosity distance between packed diploid genotypes

A shallow embedding of `src/bitwise_distance.c` and theorems about it.

Conventions of the embedding.

* A C `char` is represented by its 8-bit pattern, a natural number below 256; every store into
  a `char` truncates with `% 256`.  Whether the platform's `char` is signed only matters where a
  `char` is converted to `int` (`get_zeros`), and is a parameter `signedChar` there.
* C `int` arithmetic is exact integer arithmetic: the quantities involved (`k*8`, `(k+1)*8`,
  the distance accumulator) are bounded by `8 * chr_length`, which is taken to fit in an `int`.
* An R vector is modelled by its elements together with what a read at or past its length
  returns (`past`); C does not define those reads, so the theorems quantify over `past`.
* The OpenMP `parallel for` over `j` is modelled by running the `j` units in increasing order.
-/

namespace Poppr

/-! ## R vectors as the C code reads them -/

/-- An R vector seen from C: its `XLENGTH` elements `elts`, and `past idx`, the value that a
read at an index `idx` at or beyond the length returns. -/
structure RVec (α : Type) where
  elts : List α
  past : Nat → α

/-- The length of an R vector (`XLENGTH`). -/
def XLENGTH {α : Type} (v : RVec α) : Nat := v.elts.length

/-- The read `RAW(v)[idx]` or `INTEGER(v)[idx]`. -/
def RVec.read {α : Type} (v : RVec α) (idx : Nat) : α := v.elts.getD idx (v.past idx)

/-- One element of the `gen` slot of a genlight object: the two packed chromosome copies
(the `snp` slot, a list of two RAW vectors) and the 1-based positions of the missing calls
(the `NA.posi` slot). -/
structure Genotype where
  snp1 : RVec Nat
  snp2 : RVec Nat
  NA_posi : RVec Int

/-- A genotype without data, returned by `VECTOR_ELT` outside the list (never reached by the
loops, whose bounds are the list length). -/
def Genotype.empty : Genotype :=
  { snp1 := ⟨[], fun _ => 0⟩, snp2 := ⟨[], fun _ => 0⟩, NA_posi := ⟨[], fun _ => 0⟩ }

/-- The accessor `VECTOR_ELT(R_gen, i)`. -/
def VECTOR_ELT (R_gen : List Genotype) (i : Nat) : Genotype := R_gen.getD i Genotype.empty

/-! ## The zygosity struct and the byte-level helpers -/

/-- The C `struct zygosity`: two chromosome fragments and the three zygosity masks. -/
structure zygosity where
  c1 : Nat
  c2 : Nat
  cx : Nat
  ca : Nat
  cn : Nat
deriving DecidableEq, Repr

/-- The 8-bit pattern of `~x` for a char pattern `x`. -/
def char_not (x : Nat) : Nat := 255 - x % 256

/-- The C function `fill_zygosity`: `cx = c1 ^ c2`, `ca = c1 & c2`, `cn = ~(c1 | c2)`. -/
def fill_zygosity (ind : zygosity) : zygosity :=
  { ind with
    cx := (ind.c1 ^^^ ind.c2) % 256
    ca := (ind.c1 &&& ind.c2) % 256
    cn := char_not (ind.c1 ||| ind.c2) }

/-- The C function `get_similarity_set`: `s = sx | sa | sn`. -/
def get_similarity_set (ind1 ind2 : zygosity) : Nat :=
  let sx := (ind1.cx &&& ind2.cx) % 256
  let sa := (ind1.ca &&& ind2.ca) % 256
  let sn := (ind1.cn &&& ind2.cn) % 256
  (sx ||| sa ||| sn) % 256

/-- The `int` value of a `char` with bit pattern `b`: sign-extended when `char` is signed. -/
def char_to_int (signedChar : Bool) (b : Nat) : Int :=
  if signedChar && decide (128 ≤ b % 256) then ((b % 256 : Nat) : Int) - 256
  else ((b % 256 : Nat) : Int)

/-- One round of the loop of `get_zeros` on the pair `(zeros, tmp_set)`: `%` is C's truncating
remainder and `>> 1` the arithmetic shift. -/
def get_zeros_step (st : Int × Int) : Int × Int :=
  ((if Int.tmod st.2 2 = 0 then st.1 + 1 else st.1), st.2 >>> 1)

/-- The C function `get_zeros`, on the `int` value `tmp_set` of its `char` argument: eight
rounds of the loop. -/
def get_zeros (tmp_set : Int) : Int :=
  ((List.range 8).foldl (fun st _ => get_zeros_step st) (0, tmp_set)).1

/-- The C function `get_difference`. -/
def get_difference (signedChar : Bool) (z1 z2 : zygosity) : Int :=
  get_zeros (char_to_int signedChar (get_similarity_set (fill_zygosity z1) (fill_zygosity z2)))

/-! ## The masking loops and the pair unit of `bitwise_distance` -/

/-- The variables of one masking `while` loop: the similarity byte and one sample's scan
pointer (`next_missing_index_*`) with the value read there (`next_missing_*`). -/
structure Scan where
  tmp_sim_set : Nat
  next_missing_index : Nat
  next_missing : Int
deriving DecidableEq, Repr

/-- The guard of a masking loop:
`next_missing_index < nap_length && next_missing < (k+1)*8 && next_missing >= k*8`. -/
def mask_guard (nap_length k : Nat) (s : Scan) : Bool :=
  decide (s.next_missing_index < nap_length) && decide (s.next_missing < ((k : Int) + 1) * 8)
    && decide (s.next_missing ≥ (k : Int) * 8)

/-- The body of a masking loop: build `mask = 1 << (next_missing % 8)`, force the bit, advance
the pointer and read the next entry (minus one, for R's 1-based positions). -/
def mask_body (missing_match : Bool) (R_nap : RVec Int) (s : Scan) : Scan :=
  let mask := (1 <<< (Int.tmod s.next_missing 8).toNat) % 256
  { tmp_sim_set :=
      if missing_match then (s.tmp_sim_set ||| mask) % 256
      else (s.tmp_sim_set &&& char_not mask) % 256
    next_missing_index := s.next_missing_index + 1
    next_missing := R_nap.read (s.next_missing_index + 1) - 1 }

/-- A masking `while` loop run for at most `fuel` rounds. -/
def mask_while (missing_match : Bool) (R_nap : RVec Int) (nap_length k : Nat) :
    Nat → Scan → Scan
  | 0, s => s
  | fuel + 1, s =>
    if mask_guard nap_length k s then
      mask_while missing_match R_nap nap_length k fuel (mask_body missing_match R_nap s)
    else s

/-- A masking `while` loop of `bitwise_distance` (the one for `i` and the one for `j` are the
same text on different variables).  Every round advances the pointer and the guard requires
it to be below `nap_length`, so `nap_length - next_missing_index` rounds always suffice. -/
def mask_loop (missing_match : Bool) (R_nap : RVec Int) (nap_length k : Nat) (s : Scan) : Scan :=
  mask_while missing_match R_nap nap_length k (nap_length - s.next_missing_index) s

/-- The private variables of one `(i, j)` unit that live across the window loop. -/
structure PairState where
  cur_distance : Int
  next_missing_index_i : Nat
  next_missing_i : Int
  next_missing_index_j : Nat
  next_missing_j : Int
deriving DecidableEq, Repr

/-- The body of the window loop `for(k = 0; k < chr_length; k++)`. -/
def window_body (signedChar missing_match : Bool)
    (R_chr1_1 R_chr1_2 : RVec Nat) (R_nap1 : RVec Int) (nap1_length : Nat)
    (R_chr2_1 R_chr2_2 : RVec Nat) (R_nap2 : RVec Int) (nap2_length : Nat)
    (st : PairState) (k : Nat) : PairState :=
  let set_1 := fill_zygosity
    { c1 := R_chr1_1.read k % 256, c2 := R_chr1_2.read k % 256, cx := 0, ca := 0, cn := 0 }
  let set_2 := fill_zygosity
    { c1 := R_chr2_1.read k % 256, c2 := R_chr2_2.read k % 256, cx := 0, ca := 0, cn := 0 }
  let tmp_sim_set := get_similarity_set set_1 set_2
  let si := mask_loop missing_match R_nap1 nap1_length k
    ⟨tmp_sim_set, st.next_missing_index_i, st.next_missing_i⟩
  let sj := mask_loop missing_match R_nap2 nap2_length k
    ⟨si.tmp_sim_set, st.next_missing_index_j, st.next_missing_j⟩
  { cur_distance := st.cur_distance + get_zeros (char_to_int signedChar sj.tmp_sim_set)
    next_missing_index_i := si.next_missing_index
    next_missing_i := si.next_missing
    next_missing_index_j := sj.next_missing_index
    next_missing_j := sj.next_missing }

/-- The state of a pair unit when it enters the window loop. -/
def pair_init (R_nap1 R_nap2 : RVec Int) : PairState :=
  { cur_distance := 0
    next_missing_index_j := 0
    next_missing_j := R_nap2.read 0 - 1
    next_missing_index_i := 0
    next_missing_i := R_nap1.read 0 - 1 }

/-- The state of the pair unit of outer genotype `gi` and inner genotype `gj` after the first
`n` windows. -/
def pair_windows (signedChar missing_match : Bool) (gi gj : Genotype) (n : Nat) : PairState :=
  (List.range n).foldl
    (window_body signedChar missing_match gi.snp1 gi.snp2 gi.NA_posi (XLENGTH gi.NA_posi)
      gj.snp1 gj.snp2 gj.NA_posi (XLENGTH gj.NA_posi))
    (pair_init gi.NA_posi gj.NA_posi)

/-- The value `cur_distance` that the unit of outer genotype `gi` and inner genotype `gj`
stores: `chr_length` is the length of the first chromosome copy of the outer genotype. -/
def pair_distance (signedChar missing_match : Bool) (gi gj : Genotype) : Int :=
  (pair_windows signedChar missing_match gi gj (XLENGTH gi.snp1)).cur_distance

/-! ## The distance matrix -/

/-- The write `distance_matrix[i][j] = v`. -/
def set_cell (m : Nat → Nat → Int) (i j : Nat) (v : Int) : Nat → Nat → Int :=
  fun a b => if a = i ∧ b = j then v else m a b

/-- The loop `for(j = 0; j < i; j++)` for one outer index `i`: each unit stores its distance
in `distance_matrix[i][j]` and `distance_matrix[j][i]`. -/
def inner_loop (signedChar missing_match : Bool) (R_gen : List Genotype) (i : Nat)
    (m : Nat → Nat → Int) : Nat → Nat → Int :=
  (List.range i).foldl
    (fun m j =>
      let cur_distance :=
        pair_distance signedChar missing_match (VECTOR_ELT R_gen i) (VECTOR_ELT R_gen j)
      set_cell (set_cell m i j cur_distance) j i cur_distance)
    m

/-- The array `distance_matrix` after the loop over every genotype, starting from the zeroed
allocation of `R_Calloc`. -/
def distance_matrix (signedChar missing_match : Bool) (R_gen : List Genotype) :
    Nat → Nat → Int :=
  (List.range R_gen.length).foldl
    (fun m i => inner_loop signedChar missing_match R_gen i m)
    (fun _ _ => 0)

/-- The number of threads handed to `omp_set_num_threads`: the hardware maximum when zero is
requested. -/
def num_threads (omp_max_threads requested_threads : Int) : Int :=
  if requested_threads = 0 then omp_max_threads else requested_threads

/-- The C function `bitwise_distance`: the vector `R_out` of `num_gens * num_gens` integers
with `R_out[i*num_gens + j] = distance_matrix[i][j]`.  The thread count only selects how the
`j` units are scheduled. -/
def bitwise_distance (signedChar : Bool) (genlight : List Genotype) (missing : Bool)
    (_requested_threads : Int) : List Int :=
  let num_gens := genlight.length
  let dm := distance_matrix signedChar missing genlight
  (List.range (num_gens * num_gens)).map (fun t => dm (t / num_gens) (t % num_gens))

/-! ## Sites, zygosity states and missing calls, as the specification words them -/

/-- The zygosity of a diploid site. -/
inductive ZygState where
  | heterozygous
  | homozygous_dominant
  | homozygous_recessive
deriving DecidableEq, Repr

/-- The zygosity of a site from its bit in copy A and its bit in copy B: heterozygous when the
copies disagree, homozygous dominant when both carry the allele, homozygous recessive when
neither does. -/
def zyg_state (a b : Bool) : ZygState :=
  if a != b then ZygState.heterozygous
  else if a then ZygState.homozygous_dominant
  else ZygState.homozygous_recessive

/-- The zygosity at bit `t` of a window whose copy-A byte is `c1` and copy-B byte is `c2`. -/
def byte_state (c1 c2 t : Nat) : ZygState := zyg_state (c1.testBit t) (c2.testBit t)

/-- The allele bit of site `g` in a packed chromosome: bit `g mod 8` (least significant bit
is bit 0) of byte `g div 8`. -/
def site_bit (chr : List Nat) (g : Nat) : Bool := (chr.getD (g / 8) 0).testBit (g % 8)

/-- The zygosity of genotype `G` at site `g`. -/
def zygosity_at (G : Genotype) (g : Nat) : ZygState :=
  zyg_state (site_bit G.snp1.elts g) (site_bit G.snp2.elts g)

/-- Site `g` (0-based) is missing for `G`: its 1-based position `g + 1` is in the
missing-index list. -/
def is_missing (G : Genotype) (g : Nat) : Bool := decide (((g : Int) + 1) ∈ G.NA_posi.elts)

/-- The two genotypes have different zygosity at site `g`. -/
def zyg_differ (G H : Genotype) (g : Nat) : Bool := decide (zygosity_at G g ≠ zygosity_at H g)

/-- The number of zero bits among the low eight bits of `b`. -/
def zero_bits (b : Nat) : Nat := (List.range 8).countP (fun t => !(b.testBit t))

/-- The number of one bits among the low eight bits of `b`. -/
def popcount8 (b : Nat) : Nat := (List.range 8).countP (fun t => b.testBit t)

/-- Every genotype of the population has both chromosome copies of `L` bytes. -/
def uniform_length (genlight : List Genotype) (L : Nat) : Prop :=
  ∀ G ∈ genlight, XLENGTH G.snp1 = L ∧ XLENGTH G.snp2 = L

/-- A missing-index list is valid for `L` bytes: strictly increasing, with values in
`[1, 8L]`. -/
def valid_missing (L : Nat) (nap : List Int) : Prop :=
  List.Sorted (· < ·) nap ∧ ∀ v ∈ nap, 1 ≤ v ∧ v ≤ 8 * (L : Int)

/-- The number of sites `g` in `[0, 8L)` missing in neither genotype at which the zygosity
states differ. -/
def mismatch_sites (G H : Genotype) (L : Nat) : Nat :=
  (List.range (8 * L)).countP (fun g => !(is_missing G g) && !(is_missing H g) && zyg_differ G H g)

/-- The number of distinct sites missing in one genotype or the other. -/
def missing_sites (G H : Genotype) : Nat :=
  (G.NA_posi.elts.toFinset ∪ H.NA_posi.elts.toFinset).card

/-- The number of sites `g` in `[0, 8L)` at which the zygosity states differ. -/
def raw_mismatch_sites (G H : Genotype) (L : Nat) : Nat :=
  (List.range (8 * L)).countP (fun g => zyg_differ G H g)

/-- Site `g` counts as a mismatch between `G` and `H` under the policy: under the match policy
a site missing in either genotype never counts and the others count when the zygosity states
differ; under the mismatch policy a site missing in either genotype always counts. -/
def site_mismatch (missing_match : Bool) (G H : Genotype) (g : Nat) : Bool :=
  if missing_match then !(is_missing G g) && !(is_missing H g) && zyg_differ G H g
  else is_missing G g || is_missing H g || zyg_differ G H g

/-- Every low bit set in `x` is set in `y`. -/
def bits_le (x y : Nat) : Prop := ∀ u, u < 8 → x.testBit u = true → y.testBit u = true

/-! ## The masking loop on the part of the list that is still to be scanned -/

/-- The byte after forcing bit `t`: set under the match policy, cleared otherwise. -/
def force_bit (missing_match : Bool) (b t : Nat) : Nat :=
  if missing_match then (b ||| (1 <<< t) % 256) % 256
  else (b &&& char_not ((1 <<< t) % 256)) % 256

/-- The masking loop of window `k` as a function of the similarity byte and of the entries
from the scan pointer on: it consumes the leading entries whose 0-based value lies in
`[8k, 8k+8)`. -/
def mask_list (missing_match : Bool) (k : Nat) : Nat → List Int → Nat × List Int
  | b, [] => (b, [])
  | b, v :: rest =>
    if v - 1 < ((k : Int) + 1) * 8 ∧ v - 1 ≥ (k : Int) * 8 then
      mask_list missing_match k (force_bit missing_match b (Int.tmod (v - 1) 8).toNat) rest
    else (b, v :: rest)

instance (genlight : List Genotype) (L : Nat) : Decidable (uniform_length genlight L) :=
  inferInstanceAs (Decidable (∀ G ∈ genlight, XLENGTH G.snp1 = L ∧ XLENGTH G.snp2 = L))

instance (L : Nat) (nap : List Int) : Decidable (valid_missing L nap) :=
  inferInstanceAs
    (Decidable (List.Sorted (· < ·) nap ∧ ∀ v ∈ nap, 1 ≤ v ∧ v ≤ 8 * (L : Int)))

/-! ## Concrete genotypes -/

/-- A genotype from its two chromosome copies, its missing-index list and the values that
reads past the end of that list return. -/
def sample (chrA chrB : List Nat) (nap : List Int) (past : Nat → Int) : Genotype :=
  { snp1 := ⟨chrA, fun _ => 0⟩, snp2 := ⟨chrB, fun _ => 0⟩, NA_posi := ⟨nap, past⟩ }

/-- The two samples of the hand-computed scenario: one window, copy-A byte `0b00000001` and
copy-B byte `0b00000000` for sample 0, both bytes zero for sample 1, no missing site. -/
def scenario (past0 past1 : Nat → Int) : List Genotype :=
  [sample [0b00000001] [0b00000000] [] past0, sample [0b00000000] [0b00000000] [] past1]

/-- The scenario with site 0 (1-based position 1) missing in sample 0. -/
def scenario_missing (past0 past1 : Nat → Int) : List Genotype :=
  [sample [0b00000001] [0b00000000] [1] past0, sample [0b00000000] [0b00000000] [] past1]

/-- Three samples of two windows with missing sites in both windows. -/
def trio : List Genotype :=
  [sample [0b10110001, 0b00001111] [0b00110101, 0b11110000] [2, 9, 16] (fun _ => 0),
   sample [0b10010011, 0b01001111] [0b01110100, 0b11110001] [] (fun _ => 3),
   sample [0b11111111, 0b00000000] [0b00000000, 0b10000001] [1, 2, 10] (fun _ => 11)]

/-- The scan pointer `idx` of a missing-index list stands at the first entry whose 0-based
value is at least `site`: the entries before it are smaller, those from it on are not. -/
def scan_at (nap : List Int) (idx : Nat) (site : Int) : Prop :=
  idx ≤ nap.length ∧ (∀ v ∈ nap.take idx, v - 1 < site) ∧ (∀ v ∈ nap.drop idx, site ≤ v - 1)

/-- Some entry of the list has its 0-based value in window `k`, at bit offset `u`. -/
def entry_at (nap : List Int) (k u : Nat) : Prop :=
  ∃ v ∈ nap, (k : Int) * 8 ≤ v - 1 ∧ v - 1 < ((k : Int) + 1) * 8 ∧ (v - 1) % 8 = (u : Int)

/-- The number of entries of the list whose 0-based value lies in window `k`. -/
def entries_in_window (nap : List Int) (k : Nat) : Nat :=
  nap.countP (fun v => decide ((k : Int) * 8 ≤ v - 1) && decide (v - 1 < ((k : Int) + 1) * 8))

instance (nap : List Int) (idx : Nat) (site : Int) : Decidable (scan_at nap idx site) :=
  inferInstanceAs (Decidable (idx ≤ nap.length ∧ (∀ v ∈ nap.take idx, v - 1 < site)
    ∧ (∀ v ∈ nap.drop idx, site ≤ v - 1)))

/-! ## The reads of the missing-index lists -/

/-- The indices at which a masking loop run for at most `fuel` rounds reads its list: every
round reads `INTEGER(R_nap)[next_missing_index]` right after the increment. -/
def mask_while_reads (missing_match : Bool) (R_nap : RVec Int) (nap_length k : Nat) :
    Nat → Scan → List Nat
  | 0, _ => []
  | fuel + 1, s =>
    if mask_guard nap_length k s then
      (s.next_missing_index + 1) ::
        mask_while_reads missing_match R_nap nap_length k fuel (mask_body missing_match R_nap s)
    else []

/-- The indices read by a masking loop of `bitwise_distance`. -/
def mask_loop_reads (missing_match : Bool) (R_nap : RVec Int) (nap_length k : Nat) (s : Scan) :
    List Nat :=
  mask_while_reads missing_match R_nap nap_length k (nap_length - s.next_missing_index) s

/-- The variables with which window `k` enters the masking loop of the outer genotype. -/
def window_scan_i (gi gj : Genotype) (st : PairState) (k : Nat) : Scan :=
  let set_1 := fill_zygosity
    { c1 := gi.snp1.read k % 256, c2 := gi.snp2.read k % 256, cx := 0, ca := 0, cn := 0 }
  let set_2 := fill_zygosity
    { c1 := gj.snp1.read k % 256, c2 := gj.snp2.read k % 256, cx := 0, ca := 0, cn := 0 }
  ⟨get_similarity_set set_1 set_2, st.next_missing_index_i, st.next_missing_i⟩

/-- The variables with which window `k` enters the masking loop of the inner genotype. -/
def window_scan_j (missing_match : Bool) (gi gj : Genotype) (st : PairState) (k : Nat) : Scan :=
  ⟨(mask_loop missing_match gi.NA_posi (XLENGTH gi.NA_posi) k
      (window_scan_i gi gj st k)).tmp_sim_set,
    st.next_missing_index_j, st.next_missing_j⟩

/-- The indices at which the unit of outer genotype `gi` and inner genotype `gj` reads the
missing-index list of `gi` up to the end of window `n - 1`: index 0 before the window loop,
then the reads of the masking loop of each window. -/
def pair_reads_i (signedChar missing_match : Bool) (gi gj : Genotype) (n : Nat) : List Nat :=
  0 :: (List.range n).flatMap (fun k =>
    mask_loop_reads missing_match gi.NA_posi (XLENGTH gi.NA_posi) k
      (window_scan_i gi gj (pair_windows signedChar missing_match gi gj k) k))

/-- The indices at which the unit reads the missing-index list of the inner genotype `gj`. -/
def pair_reads_j (signedChar missing_match : Bool) (gi gj : Genotype) (n : Nat) : List Nat :=
  0 :: (List.range n).flatMap (fun k =>
    mask_loop_reads missing_match gj.NA_posi (XLENGTH gj.NA_posi) k
      (window_scan_j missing_match gi gj (pair_windows signedChar missing_match gi gj k) k))

/-! ## The preconditions of the specification, and the order of the pair units -/

/-- No pair unit reads a chromosome vector at or past its end: the window loop of the unit
`(i, j)` reads the bytes `0 .. chr_length - 1` of both copies of genotypes `i` and `j`, where
`chr_length` is the length of the first copy of genotype `i`.  Every population of uniform
length satisfies this. -/
def raw_reads_in_bounds (genlight : List Genotype) : Prop :=
  ∀ i, i < genlight.length → ∀ j, j < i →
    XLENGTH (VECTOR_ELT genlight i).snp1 ≤ XLENGTH (VECTOR_ELT genlight i).snp2
    ∧ XLENGTH (VECTOR_ELT genlight i).snp1 ≤ XLENGTH (VECTOR_ELT genlight j).snp1
    ∧ XLENGTH (VECTOR_ELT genlight i).snp1 ≤ XLENGTH (VECTOR_ELT genlight j).snp2

instance (genlight : List Genotype) : Decidable (raw_reads_in_bounds genlight) :=
  inferInstanceAs (Decidable (∀ i, i < genlight.length → ∀ j, j < i →
    XLENGTH (VECTOR_ELT genlight i).snp1 ≤ XLENGTH (VECTOR_ELT genlight i).snp2
    ∧ XLENGTH (VECTOR_ELT genlight i).snp1 ≤ XLENGTH (VECTOR_ELT genlight j).snp1
    ∧ XLENGTH (VECTOR_ELT genlight i).snp1 ≤ XLENGTH (VECTOR_ELT genlight j).snp2))

/-- One pair unit `(i, j)`: compute the distance of genotypes `i` and `j` and store it in
`distance_matrix[i][j]` and `distance_matrix[j][i]` (the body of the loop over `j`). -/
def run_unit (signedChar missing_match : Bool) (R_gen : List Genotype)
    (m : Nat → Nat → Int) (u : Nat × Nat) : Nat → Nat → Int :=
  let cur_distance :=
    pair_distance signedChar missing_match (VECTOR_ELT R_gen u.1) (VECTOR_ELT R_gen u.2)
  set_cell (set_cell m u.1 u.2 cur_distance) u.2 u.1 cur_distance

/-- The pair units executed one after the other in the given order. -/
def run_units (signedChar missing_match : Bool) (R_gen : List Genotype)
    (order : List (Nat × Nat)) (m : Nat → Nat → Int) : Nat → Nat → Int :=
  order.foldl (run_unit signedChar missing_match R_gen) m

/-- The pair units `(i, j)` with `j < i < num_gens`, in the order of the sequential loops. -/
def all_units (num_gens : Nat) : List (Nat × Nat) :=
  (List.range num_gens).flatMap (fun i => (List.range i).map (fun j => (i, j)))

/-- The vector `R_out` when the pair units are executed in the given order on the zeroed
matrix. -/
def bitwise_distance_in_order (signedChar : Bool) (genlight : List Genotype) (missing : Bool)
    (order : List (Nat × Nat)) : List Int :=
  let num_gens := genlight.length
  let dm := run_units signedChar missing genlight order (fun _ _ => 0)
  (List.range (num_gens * num_gens)).map (fun t => dm (t / num_gens) (t % num_gens))

/-! ## Two runs that scan different lists the same way -/

/-- A relation `Q k idx n n2` between the value `n` that a scan of `R_nap` holds at index
`idx` in window `k` and the value `n2` that a scan of `R_nap2` holds at the same index, under
which the two masking loops take the same decisions: related values give the same guard; when
the guard holds the values are equal and the values read next are related again; the relation
holds before the first window and carries over from a window to the next. -/
structure scan_rel (R_nap R_nap2 : RVec Int) (Q : Nat → Nat → Int → Int → Prop) : Prop where
  guard : ∀ (k idx : Nat) (n n2 : Int) (b : Nat), Q k idx n n2 →
    mask_guard (XLENGTH R_nap) k ⟨b, idx, n⟩ = mask_guard (XLENGTH R_nap2) k ⟨b, idx, n2⟩
  step : ∀ (k idx : Nat) (n n2 : Int) (b : Nat), Q k idx n n2 →
    mask_guard (XLENGTH R_nap) k ⟨b, idx, n⟩ = true →
    n = n2 ∧ Q k (idx + 1) (R_nap.read (idx + 1) - 1) (R_nap2.read (idx + 1) - 1)
  next : ∀ (k idx : Nat) (n n2 : Int), Q k idx n n2 → Q (k + 1) idx n n2
  init : Q 0 0 (R_nap.read 0 - 1) (R_nap2.read 0 - 1)

/-- Two samples with the same chromosome bytes and the same two missing sites, and a third,
different sample. -/
def twins : List Genotype :=
  [sample [0b10110001] [0b00110101] [2, 5] (fun _ => 0),
   sample [0b00001111] [0b11110000] [7] (fun _ => 0),
   sample [0b10110001] [0b00110101] [2, 5] (fun _ => 4)]

/-- Two samples of two windows; in the list of sample 0 the entry 3 (0-based value 2, in
window 0) follows the entry 9 (0-based value 8, in window 1). -/
def blocked_pair : List Genotype :=
  [sample [0b10110001, 0b00001111] [0b00110101, 0b11110000] [2, 9, 3, 12] (fun _ => 0),
   sample [0b10010011, 0b01001111] [0b01110100, 0b11110001] [4] (fun _ => 0)]

/-- The population `blocked_pair` with the list of sample 0 cut before the entry 3. -/
def blocked_pair_truncated : List Genotype :=
  [sample [0b10110001, 0b00001111] [0b00110101, 0b11110000] [2, 9] (fun _ => 0),
   sample [0b10010011, 0b01001111] [0b01110100, 0b11110001] [4] (fun _ => 0)]

/-! ## The allele counters of `fill_loci` -/

/-- The C `struct locus`: the numbers of dominant and recessive alleles, of heterozygous
genotypes and of contributing genotypes at one site. -/
structure locus where
  d : Int
  r : Int
  h : Int
  n : Int
deriving DecidableEq, Repr

/-- The variables of `fill_loci` that live across the loops over the loci and bits of one
genotype: the array `loc` and the scan pointer into the missing-index list. -/
structure LociState where
  loc : Nat → locus
  next_missing_index_i : Nat
  next_missing_i : Int

/-- The body of the loop `for(bit = 0; bit < 8; bit++)` of `fill_loci` for the locus group
`locus_group` (the C variable `locus`): when the site is not the next missing one, add
`(zyg.cx & (1<<bit)) >> bit` to `h`, that term plus `2 * (zyg.ca & (1<<bit))` to `d`, that
term plus `2 * (zyg.cn & (1<<bit))` to `r`, and 1 to `n`; otherwise advance the scan pointer
when `next_missing_index_i < nap1_length-1`. -/
def fill_loci_bit (R_nap1 : RVec Int) (nap1_length : Nat) (zyg : zygosity) (locus_group : Nat)
    (st : LociState) (bit : Nat) : LociState :=
  if st.next_missing_i ≠ (locus_group : Int) * 8 + (bit : Int) then
    { st with
      loc := fun site =>
        if site = locus_group * 8 + bit then
          { h := (st.loc site).h + (((zyg.cx &&& (1 <<< bit)) >>> bit : Nat) : Int)
            d := (st.loc site).d + ((((zyg.cx &&& (1 <<< bit)) >>> bit : Nat) : Int)
              + 2 * ((zyg.ca &&& (1 <<< bit) : Nat) : Int))
            r := (st.loc site).r + ((((zyg.cx &&& (1 <<< bit)) >>> bit : Nat) : Int)
              + 2 * ((zyg.cn &&& (1 <<< bit) : Nat) : Int))
            n := (st.loc site).n + 1 }
        else st.loc site }
  else if (st.next_missing_index_i : Int) < (nap1_length : Int) - 1 then
    { st with
      next_missing_index_i := st.next_missing_index_i + 1
      next_missing_i := R_nap1.read (st.next_missing_index_i + 1) - 1 }
  else st

/-- The body of the loop over the locus groups of one genotype: fill the zygosity struct from
the two chromosome bytes, then run the loop over the 8 bits. -/
def fill_loci_locus (G : Genotype) (st : LociState) (locus_group : Nat) : LociState :=
  let zyg := fill_zygosity
    { c1 := G.snp1.read locus_group % 256, c2 := G.snp2.read locus_group % 256,
      cx := 0, ca := 0, cn := 0 }
  (List.range 8).foldl (fill_loci_bit G.NA_posi (XLENGTH G.NA_posi) zyg locus_group) st

/-- The body of the loop over the genotypes: reset the scan pointer, read the first missing
index, and run the loop over the `chr_length` locus groups. -/
def fill_loci_genotype (loc : Nat → locus) (G : Genotype) : Nat → locus :=
  ((List.range (XLENGTH G.snp1)).foldl (fill_loci_locus G)
    { loc := loc, next_missing_index_i := 0, next_missing_i := G.NA_posi.read 0 - 1 }).loc

/-- The C function `fill_loci`: the array `loc` after the loop over every genotype. -/
def fill_loci (loc : Nat → locus) (genlight : List Genotype) : Nat → locus :=
  (List.range genlight.length).foldl
    (fun loc i => fill_loci_genotype loc (VECTOR_ELT genlight i)) loc

/-- One genotype of one locus group: copy-A byte `0b00001010`, copy-B byte `0b00000010`, site
0 (position 1) missing; site 1 is homozygous dominant, site 3 heterozygous, the other sites
homozygous recessive. -/
def loci_sample : List Genotype :=
  [sample [0b00001010] [0b00000010] [1] (fun _ => 0)]

/-! ## The cells of the matrix -/

theorem inner_loop_prefix (signedChar missing_match : Bool) (R_gen : List Genotype) (i : Nat)
    (m : Nat → Nat → Int) (n : Nat) (hn : n ≤ i) (a b : Nat) :
    (List.range n).foldl
      (fun m j =>
        let cur_distance :=
          pair_distance signedChar missing_match (VECTOR_ELT R_gen i) (VECTOR_ELT R_gen j)
        set_cell (set_cell m i j cur_distance) j i cur_distance) m a b
    = if a = i ∧ b < n then
        pair_distance signedChar missing_match (VECTOR_ELT R_gen i) (VECTOR_ELT R_gen b)
      else if b = i ∧ a < n then
        pair_distance signedChar missing_match (VECTOR_ELT R_gen i) (VECTOR_ELT R_gen a)
      else m a b := by
  induction n with
  | zero => simp
  | succ n ih =>
    rw [List.range_succ, List.foldl_append]
    simp only [List.foldl_cons, List.foldl_nil, set_cell]
    rw [ih (by omega)]
    split_ifs <;> first
      | rfl
      | (exfalso; omega)
      | (have hb : b = n := by omega
         rw [hb])
      | (have ha : a = n := by omega
         rw [ha])

theorem inner_loop_apply (signedChar missing_match : Bool) (R_gen : List Genotype) (i : Nat)
    (m : Nat → Nat → Int) (a b : Nat) :
    inner_loop signedChar missing_match R_gen i m a b
    = if a = i ∧ b < i then
        pair_distance signedChar missing_match (VECTOR_ELT R_gen i) (VECTOR_ELT R_gen b)
      else if b = i ∧ a < i then
        pair_distance signedChar missing_match (VECTOR_ELT R_gen i) (VECTOR_ELT R_gen a)
      else m a b :=
  inner_loop_prefix signedChar missing_match R_gen i m i (Nat.le_refl i) a b

theorem outer_loop_prefix (signedChar missing_match : Bool) (R_gen : List Genotype)
    (n a b : Nat) :
    (List.range n).foldl
      (fun m i => inner_loop signedChar missing_match R_gen i m) (fun _ _ => 0) a b
    = if b < a ∧ a < n then
        pair_distance signedChar missing_match (VECTOR_ELT R_gen a) (VECTOR_ELT R_gen b)
      else if a < b ∧ b < n then
        pair_distance signedChar missing_match (VECTOR_ELT R_gen b) (VECTOR_ELT R_gen a)
      else 0 := by
  induction n with
  | zero => simp
  | succ n ih =>
    rw [List.range_succ, List.foldl_append]
    simp only [List.foldl_cons, List.foldl_nil]
    rw [inner_loop_apply, ih]
    split_ifs <;> first
      | rfl
      | (exfalso; omega)
      | (have hb : b = n := by omega
         rw [hb])
      | (have ha : a = n := by omega
         rw [ha])

/-- The cell `distance_matrix[a][b]` after the loops: the distance stored by the unit whose
outer genotype is the one of larger index, and the initial zero on the diagonal and outside
the matrix. -/
theorem distance_matrix_apply (signedChar missing_match : Bool) (R_gen : List Genotype)
    (a b : Nat) :
    distance_matrix signedChar missing_match R_gen a b
    = if b < a ∧ a < R_gen.length then
        pair_distance signedChar missing_match (VECTOR_ELT R_gen a) (VECTOR_ELT R_gen b)
      else if a < b ∧ b < R_gen.length then
        pair_distance signedChar missing_match (VECTOR_ELT R_gen b) (VECTOR_ELT R_gen a)
      else 0 :=
  outer_loop_prefix signedChar missing_match R_gen R_gen.length a b

/-- The element `R_out[i*num_gens + j]` of the returned vector is `distance_matrix[i][j]`. -/
theorem bitwise_distance_get (signedChar : Bool) (genlight : List Genotype) (missing : Bool)
    (requested_threads : Int) (i j : Nat) (hi : i < genlight.length)
    (hj : j < genlight.length) :
    (bitwise_distance signedChar genlight missing requested_threads)[i * genlight.length + j]?
      = some (distance_matrix signedChar missing genlight i j) := by
  have hlt : i * genlight.length + j < genlight.length * genlight.length := by
    calc i * genlight.length + j < i * genlight.length + genlight.length := by omega
      _ = (i + 1) * genlight.length := by ring
      _ ≤ genlight.length * genlight.length := Nat.mul_le_mul_right _ hi
  have hpos : 0 < genlight.length := by omega
  have hdiv : (i * genlight.length + j) / genlight.length = i := by
    rw [Nat.add_comm, Nat.add_mul_div_right _ _ hpos, Nat.div_eq_of_lt hj, Nat.zero_add]
  have hmod : (i * genlight.length + j) % genlight.length = j := by
    rw [Nat.add_comm, Nat.add_mul_mod_self_right, Nat.mod_eq_of_lt hj]
  simp only [bitwise_distance]
  rw [List.getElem?_map, List.getElem?_range hlt]
  simp [hdiv, hmod]

/-! ## Bytes -/

theorem mod256_testBit (x t : Nat) :
    (x % 256).testBit t = (decide (t < 8) && x.testBit t) := by
  have h : (256 : Nat) = 2 ^ 8 := by norm_num
  rw [h, Nat.testBit_mod_two_pow]

theorem char_not_testBit (x t : Nat) :
    (char_not x).testBit t = (decide (t < 8) && !(x.testBit t)) := by
  unfold char_not
  have h : x % 256 < 2 ^ 8 := Nat.mod_lt _ (by norm_num)
  have e : 255 - x % 256 = 2 ^ 8 - (x % 256 + 1) := by omega
  rw [e, Nat.testBit_two_pow_sub_succ h, mod256_testBit]
  cases decide (t < 8) <;> simp

theorem zero_bits_mod (b : Nat) : zero_bits (b % 256) = zero_bits b := by
  unfold zero_bits
  apply List.countP_congr
  intro t ht
  have h8 : t < 8 := List.mem_range.mp ht
  simp [mod256_testBit, h8]

theorem char_to_int_mod (sgn : Bool) (b : Nat) :
    char_to_int sgn (b % 256) = char_to_int sgn b := by
  simp [char_to_int, Nat.mod_mod]

set_option maxRecDepth 100000 in
theorem get_zeros_small : ∀ b < 256, ∀ sgn : Bool,
    get_zeros (char_to_int sgn b) = (zero_bits b : Int) := by
  decide

/-- The loop of `get_zeros` counts the zero bits of the byte, whatever the signedness of
`char`. -/
theorem get_zeros_eq (sgn : Bool) (b : Nat) :
    get_zeros (char_to_int sgn b) = (zero_bits b : Int) := by
  rw [← char_to_int_mod, ← zero_bits_mod]
  exact get_zeros_small (b % 256) (Nat.mod_lt _ (by norm_num)) sgn

theorem zero_bits_le (b : Nat) : zero_bits b ≤ 8 := by
  unfold zero_bits
  exact (List.countP_le_length _).trans (by simp)

theorem similarity_bool (a b c d : Bool) :
    ((a ^^ b) && (c ^^ d) || a && b && (c && d) || !(a || b) && !(c || d))
      = decide (zyg_state a b = zyg_state c d) := by
  revert a b c d
  decide

/-- Bit `t` of the similarity byte of two filled structs says whether the two zygosity states
at bit `t` agree. -/
theorem similarity_testBit (z1 z2 : zygosity) (t : Nat) (ht : t < 8) :
    (get_similarity_set (fill_zygosity z1) (fill_zygosity z2)).testBit t
      = decide (byte_state z1.c1 z1.c2 t = byte_state z2.c1 z2.c2 t) := by
  simp only [get_similarity_set, fill_zygosity, byte_state, mod256_testBit,
    Nat.testBit_or, Nat.testBit_and, Nat.testBit_xor, char_not_testBit, ht, decide_True,
    Bool.true_and]
  exact similarity_bool _ _ _ _

theorem force_bit_testBit (missing_match : Bool) (b t u : Nat) (hu : u < 8) :
    (force_bit missing_match b t).testBit u
      = if missing_match then (b.testBit u || decide (t = u))
        else (b.testBit u && !decide (t = u)) := by
  unfold force_bit
  cases missing_match <;>
    simp [mod256_testBit, char_not_testBit, Nat.testBit_or, Nat.testBit_and, Nat.one_shiftLeft,
      Nat.testBit_two_pow, hu]

/-! ## The masking loop and the list still to be scanned -/

/-- The `while` loop with enough fuel does what `mask_list` does on the entries from the scan
pointer on, and leaves the pointer with the value read at it. -/
theorem mask_while_list (missing_match : Bool) (R_nap : RVec Int) (k : Nat) :
    ∀ (fuel : Nat) (s : Scan),
      s.next_missing = R_nap.read s.next_missing_index - 1 →
      XLENGTH R_nap - s.next_missing_index ≤ fuel →
      (mask_while missing_match R_nap (XLENGTH R_nap) k fuel s).tmp_sim_set
          = (mask_list missing_match k s.tmp_sim_set (R_nap.elts.drop s.next_missing_index)).1
      ∧ R_nap.elts.drop
            (mask_while missing_match R_nap (XLENGTH R_nap) k fuel s).next_missing_index
          = (mask_list missing_match k s.tmp_sim_set (R_nap.elts.drop s.next_missing_index)).2
      ∧ (mask_while missing_match R_nap (XLENGTH R_nap) k fuel s).next_missing
          = R_nap.read
              (mask_while missing_match R_nap (XLENGTH R_nap) k fuel s).next_missing_index - 1
      ∧ s.next_missing_index
          ≤ (mask_while missing_match R_nap (XLENGTH R_nap) k fuel s).next_missing_index := by
  intro fuel
  induction fuel with
  | zero =>
    intro s hnext hfuel
    have hlen : R_nap.elts.length ≤ s.next_missing_index := by
      unfold XLENGTH at hfuel; omega
    simp [mask_while, List.drop_eq_nil_of_le hlen, mask_list, hnext]
  | succ fuel ih =>
    intro s hnext hfuel
    by_cases hidx : s.next_missing_index < R_nap.elts.length
    · have hdrop : R_nap.elts.drop s.next_missing_index
          = R_nap.elts[s.next_missing_index] :: R_nap.elts.drop (s.next_missing_index + 1) :=
        List.drop_eq_getElem_cons hidx
      have hread : R_nap.read s.next_missing_index = R_nap.elts[s.next_missing_index] :=
        List.getD_eq_getElem _ _ hidx
      rw [hread] at hnext
      by_cases hwin : s.next_missing < ((k : Int) + 1) * 8 ∧ s.next_missing ≥ (k : Int) * 8
      · have hg : mask_guard (XLENGTH R_nap) k s = true := by
          simp [mask_guard, XLENGTH, hidx, hwin.1, hwin.2]
        have hcond : R_nap.elts[s.next_missing_index] - 1 < ((k : Int) + 1) * 8
            ∧ R_nap.elts[s.next_missing_index] - 1 ≥ (k : Int) * 8 := by
          rw [← hnext]; exact hwin
        have hbody : (mask_body missing_match R_nap s).tmp_sim_set
            = force_bit missing_match s.tmp_sim_set
                (Int.tmod (R_nap.elts[s.next_missing_index] - 1) 8).toNat := by
          rw [← hnext]; rfl
        have hrec := ih (mask_body missing_match R_nap s) rfl
          (by simp only [mask_body]; unfold XLENGTH at hfuel ⊢; omega)
        rw [hbody] at hrec
        simp only [mask_while, hg, if_true, hdrop, mask_list, hcond, and_self]
        refine ⟨hrec.1, hrec.2.1, hrec.2.2.1, ?_⟩
        have h4 := hrec.2.2.2
        have hb : (mask_body missing_match R_nap s).next_missing_index
            = s.next_missing_index + 1 := rfl
        rw [hb] at h4
        omega
      · have hg : mask_guard (XLENGTH R_nap) k s = false := by
          simp only [mask_guard, XLENGTH, hidx, decide_True, Bool.true_and]
          rcases not_and_or.mp hwin with h | h <;> simp [h]
        have hcond : ¬ (R_nap.elts[s.next_missing_index] - 1 < ((k : Int) + 1) * 8
            ∧ R_nap.elts[s.next_missing_index] - 1 ≥ (k : Int) * 8) := by
          rw [← hnext]; exact hwin
        simp only [mask_while, hg, hdrop, mask_list, hcond, if_false, Bool.false_eq_true]
        simp [hread, hnext]
    · have hlen : R_nap.elts.length ≤ s.next_missing_index := by omega
      have hg : mask_guard (XLENGTH R_nap) k s = false := by
        simp [mask_guard, XLENGTH, hidx]
      simp [mask_while, hg, List.drop_eq_nil_of_le hlen, mask_list, hnext]

/-- On a strictly increasing list whose entries all lie at or after window `k`, the masking
loop consumes exactly the entries of window `k` and forces exactly their bits. -/
theorem mask_list_sorted (missing_match : Bool) (k : Nat) :
    ∀ (rest : List Int) (b : Nat),
      List.Sorted (· < ·) rest → (∀ v ∈ rest, 8 * (k : Int) < v) →
      (mask_list missing_match k b rest).2
          = rest.filter (fun v => decide (8 * ((k : Int) + 1) < v))
      ∧ ∀ u, u < 8 →
          (mask_list missing_match k b rest).1.testBit u
            = if missing_match then
                (b.testBit u || decide ((8 * (k : Int) + (u : Int) + 1) ∈ rest))
              else (b.testBit u && !decide ((8 * (k : Int) + (u : Int) + 1) ∈ rest)) := by
  intro rest
  induction rest with
  | nil => intro b _ _; cases missing_match <;> simp [mask_list]
  | cons v rest ih =>
    intro b hs hlow
    have hv : 8 * (k : Int) < v := hlow v (List.mem_cons_self _ _)
    have hs2 := List.sorted_cons.mp hs
    by_cases hcond : v - 1 < ((k : Int) + 1) * 8 ∧ v - 1 ≥ (k : Int) * 8
    · have hrest : ∀ w ∈ rest, 8 * (k : Int) < w := fun w hw => by
        have := hs2.1 w hw; omega
      have hrec := ih (force_bit missing_match b (Int.tmod (v - 1) 8).toNat) hs2.2 hrest
      have hnot : ¬ (8 * ((k : Int) + 1) < v) := by omega
      simp only [mask_list, hcond, and_self, if_true]
      refine ⟨?_, ?_⟩
      · rw [hrec.1, List.filter_cons]; simp [hnot]
      · intro u hu
        rw [hrec.2 u hu, force_bit_testBit _ _ _ _ hu]
        have hmod : Int.tmod (v - 1) 8 = (v - 1) % 8 :=
          Int.tmod_eq_emod (by omega) (by norm_num)
        have hiff : ((Int.tmod (v - 1) 8).toNat = u) ↔ (8 * (k : Int) + (u : Int) + 1 = v) := by
          rw [hmod]; omega
        cases missing_match <;> simp [hiff, List.mem_cons] <;>
          by_cases h1 : 8 * (k : Int) + (u : Int) + 1 = v <;> simp [h1]
    · have hbig : 8 * ((k : Int) + 1) < v := by
        by_contra h
        exact hcond ⟨by omega, by omega⟩
      have hall : ∀ w ∈ v :: rest, 8 * ((k : Int) + 1) < w := by
        intro w hw
        rcases List.mem_cons.mp hw with h | h
        · rw [h]; exact hbig
        · have := hs2.1 w h; omega
      simp only [mask_list, hcond, if_false]
      refine ⟨?_, ?_⟩
      · symm
        apply List.filter_eq_self.mpr
        intro w hw
        simpa using hall w hw
      · intro u hu
        have hnotin : ¬ ((8 * (k : Int) + (u : Int) + 1) ∈ v :: rest) := by
          intro hmem
          have := hall _ hmem
          omega
        cases missing_match <;> simp [hnotin]

/-- One masking loop on a strictly increasing list, entered with the pointer at the first
entry at or after window `n`: it leaves the pointer at the first entry at or after window
`n + 1` and forces exactly the bits of the entries of the list in window `n`. -/
theorem mask_loop_valid (missing_match : Bool) (R_nap : RVec Int) (n : Nat) (s : Scan)
    (hs : List.Sorted (· < ·) R_nap.elts)
    (hnext : s.next_missing = R_nap.read s.next_missing_index - 1)
    (hdrop : R_nap.elts.drop s.next_missing_index
      = R_nap.elts.filter (fun v => decide (8 * (n : Int) < v))) :
    (mask_loop missing_match R_nap (XLENGTH R_nap) n s).next_missing
        = R_nap.read (mask_loop missing_match R_nap (XLENGTH R_nap) n s).next_missing_index - 1
    ∧ R_nap.elts.drop (mask_loop missing_match R_nap (XLENGTH R_nap) n s).next_missing_index
        = R_nap.elts.filter (fun v => decide (8 * (((n + 1 : Nat) : Int)) < v))
    ∧ ∀ u, u < 8 →
        (mask_loop missing_match R_nap (XLENGTH R_nap) n s).tmp_sim_set.testBit u
          = if missing_match then
              (s.tmp_sim_set.testBit u || decide ((8 * (n : Int) + (u : Int) + 1) ∈ R_nap.elts))
            else
              (s.tmp_sim_set.testBit u
                && !decide ((8 * (n : Int) + (u : Int) + 1) ∈ R_nap.elts)) := by
  have hw := mask_while_list missing_match R_nap n
    (XLENGTH R_nap - s.next_missing_index) s hnext (le_refl _)
  have hl := mask_list_sorted missing_match n
    (R_nap.elts.filter (fun v => decide (8 * (n : Int) < v))) s.tmp_sim_set
    (hs.filter _) (fun v hv => by simpa using (List.mem_filter.mp hv).2)
  rw [hdrop] at hw
  unfold mask_loop
  refine ⟨hw.2.2.1, ?_, ?_⟩
  · rw [hw.2.1, hl.1, List.filter_filter]
    apply List.filter_congr
    intro v _
    by_cases h : 8 * (((n + 1 : Nat) : Int)) < v
    · have h2 : 8 * (n : Int) < v := by push_cast at h; omega
      have h3 : 8 * ((n : Int) + 1) < v := by push_cast at h; omega
      simp [h, h2, h3]
    · have h3 : ¬ 8 * ((n : Int) + 1) < v := by push_cast at h; omega
      simp [h, h3]
  · intro u hu
    rw [hw.1, hl.2 u hu]
    have hmem : ((8 * (n : Int) + (u : Int) + 1)
          ∈ R_nap.elts.filter (fun v => decide (8 * (n : Int) < v)))
        ↔ ((8 * (n : Int) + (u : Int) + 1) ∈ R_nap.elts) := by
      rw [List.mem_filter]
      constructor
      · exact fun h => h.1
      · exact fun h => ⟨h, by simp; omega⟩
    simp only [hmem]

theorem read_site_bit (R : RVec Nat) (n u : Nat) (hn : n < R.elts.length) (hu : u < 8) :
    (R.read n % 256).testBit u = site_bit R.elts (8 * n + u) := by
  have h1 : (8 * n + u) / 8 = n := by omega
  have h2 : (8 * n + u) % 8 = u := by omega
  have h3 : R.read n = R.elts.getD n 0 := by
    unfold RVec.read
    rw [List.getD_eq_getElem _ _ hn, List.getD_eq_getElem _ _ hn]
  simp [site_bit, h1, h2, h3, mod256_testBit, hu]

theorem byte_state_read (G : Genotype) (n u : Nat) (h1 : n < G.snp1.elts.length)
    (h2 : n < G.snp2.elts.length) (hu : u < 8) :
    byte_state (G.snp1.read n % 256) (G.snp2.read n % 256) u = zygosity_at G (8 * n + u) := by
  unfold byte_state zygosity_at
  rw [read_site_bit _ _ _ h1 hu, read_site_bit _ _ _ h2 hu]

theorem site_mismatch_bool (mm a b c : Bool) :
    (!(if mm then (if mm then c || a else c && !a) || b
        else (if mm then c || a else c && !a) && !b))
      = if mm then !a && !b && !c else a || b || !c := by
  revert mm a b c
  decide

/-- One round of the window loop on valid lists: the accumulator grows by the number of
mismatching sites of window `n` and both pointers move to the next window. -/
theorem window_body_valid (signedChar missing_match : Bool) (Gi Gj : Genotype) (n : Nat)
    (st : PairState)
    (hsi : List.Sorted (· < ·) Gi.NA_posi.elts) (hsj : List.Sorted (· < ·) Gj.NA_posi.elts)
    (hi1 : n < Gi.snp1.elts.length) (hi2 : n < Gi.snp2.elts.length)
    (hj1 : n < Gj.snp1.elts.length) (hj2 : n < Gj.snp2.elts.length)
    (hni : st.next_missing_i = Gi.NA_posi.read st.next_missing_index_i - 1)
    (hdi : Gi.NA_posi.elts.drop st.next_missing_index_i
      = Gi.NA_posi.elts.filter (fun v => decide (8 * (n : Int) < v)))
    (hnj : st.next_missing_j = Gj.NA_posi.read st.next_missing_index_j - 1)
    (hdj : Gj.NA_posi.elts.drop st.next_missing_index_j
      = Gj.NA_posi.elts.filter (fun v => decide (8 * (n : Int) < v))) :
    ∀ st2, st2 = window_body signedChar missing_match Gi.snp1 Gi.snp2 Gi.NA_posi
        (XLENGTH Gi.NA_posi) Gj.snp1 Gj.snp2 Gj.NA_posi (XLENGTH Gj.NA_posi) st n →
      st2.cur_distance = st.cur_distance
          + ((List.range 8).countP
              (fun u => site_mismatch missing_match Gi Gj (8 * n + u)) : Nat)
      ∧ st2.next_missing_i = Gi.NA_posi.read st2.next_missing_index_i - 1
      ∧ Gi.NA_posi.elts.drop st2.next_missing_index_i
          = Gi.NA_posi.elts.filter (fun v => decide (8 * (((n + 1 : Nat) : Int)) < v))
      ∧ st2.next_missing_j = Gj.NA_posi.read st2.next_missing_index_j - 1
      ∧ Gj.NA_posi.elts.drop st2.next_missing_index_j
          = Gj.NA_posi.elts.filter (fun v => decide (8 * (((n + 1 : Nat) : Int)) < v)) := by
  intro st2 hst2
  have hI := mask_loop_valid missing_match Gi.NA_posi n
    ⟨get_similarity_set
        (fill_zygosity
          { c1 := Gi.snp1.read n % 256, c2 := Gi.snp2.read n % 256, cx := 0, ca := 0, cn := 0 })
        (fill_zygosity
          { c1 := Gj.snp1.read n % 256, c2 := Gj.snp2.read n % 256, cx := 0, ca := 0, cn := 0 }),
      st.next_missing_index_i, st.next_missing_i⟩ hsi hni hdi
  have hJ := mask_loop_valid missing_match Gj.NA_posi n
    ⟨(mask_loop missing_match Gi.NA_posi (XLENGTH Gi.NA_posi) n
        ⟨get_similarity_set
          (fill_zygosity
            { c1 := Gi.snp1.read n % 256, c2 := Gi.snp2.read n % 256, cx := 0, ca := 0, cn := 0 })
          (fill_zygosity
            { c1 := Gj.snp1.read n % 256, c2 := Gj.snp2.read n % 256, cx := 0, ca := 0, cn := 0 }),
          st.next_missing_index_i, st.next_missing_i⟩).tmp_sim_set,
      st.next_missing_index_j, st.next_missing_j⟩ hsj hnj hdj
  subst hst2
  refine ⟨?_, hI.1, hI.2.1, hJ.1, hJ.2.1⟩
  simp only [window_body]
  rw [get_zeros_eq]
  congr 2
  unfold zero_bits
  apply List.countP_congr
  intro u hu
  have hu8 : u < 8 := List.mem_range.mp hu
  rw [hJ.2.2 u hu8, hI.2.2 u hu8, similarity_testBit _ _ _ hu8]
  simp only [byte_state_read Gi n u hi1 hi2 hu8, byte_state_read Gj n u hj1 hj2 hu8]
  have hcast : ∀ G : Genotype, is_missing G (8 * n + u)
      = decide ((8 * (n : Int) + (u : Int) + 1) ∈ G.NA_posi.elts) := by
    intro G; unfold is_missing; push_cast; rfl
  have hz : zyg_differ Gi Gj (8 * n + u)
      = !decide (zygosity_at Gi (8 * n + u) = zygosity_at Gj (8 * n + u)) := by
    unfold zyg_differ; simp
  rw [site_mismatch_bool]
  unfold site_mismatch
  rw [hcast Gi, hcast Gj, hz]

/-! ## The pair unit on valid input -/

theorem pair_windows_succ (signedChar missing_match : Bool) (Gi Gj : Genotype) (n : Nat) :
    pair_windows signedChar missing_match Gi Gj (n + 1)
      = window_body signedChar missing_match Gi.snp1 Gi.snp2 Gi.NA_posi (XLENGTH Gi.NA_posi)
          Gj.snp1 Gj.snp2 Gj.NA_posi (XLENGTH Gj.NA_posi)
          (pair_windows signedChar missing_match Gi Gj n) n := by
  simp [pair_windows, List.range_succ, List.foldl_append]

/-- After `n` windows of a pair unit on valid lists, the accumulator holds the number of
mismatching sites below `8 * n` and both pointers stand at the first entry of window `n` or
later. -/
theorem pair_windows_valid (signedChar missing_match : Bool) (Gi Gj : Genotype) (L : Nat)
    (hsi : List.Sorted (· < ·) Gi.NA_posi.elts) (hsj : List.Sorted (· < ·) Gj.NA_posi.elts)
    (hpi : ∀ v ∈ Gi.NA_posi.elts, (1 : Int) ≤ v) (hpj : ∀ v ∈ Gj.NA_posi.elts, (1 : Int) ≤ v)
    (hi1 : Gi.snp1.elts.length = L) (hi2 : Gi.snp2.elts.length = L)
    (hj1 : Gj.snp1.elts.length = L) (hj2 : Gj.snp2.elts.length = L) (n : Nat) (hn : n ≤ L) :
    (pair_windows signedChar missing_match Gi Gj n).cur_distance
        = ((List.range (8 * n)).countP (site_mismatch missing_match Gi Gj) : Nat)
    ∧ (pair_windows signedChar missing_match Gi Gj n).next_missing_i
        = Gi.NA_posi.read
            (pair_windows signedChar missing_match Gi Gj n).next_missing_index_i - 1
    ∧ Gi.NA_posi.elts.drop (pair_windows signedChar missing_match Gi Gj n).next_missing_index_i
        = Gi.NA_posi.elts.filter (fun v => decide (8 * (n : Int) < v))
    ∧ (pair_windows signedChar missing_match Gi Gj n).next_missing_j
        = Gj.NA_posi.read
            (pair_windows signedChar missing_match Gi Gj n).next_missing_index_j - 1
    ∧ Gj.NA_posi.elts.drop (pair_windows signedChar missing_match Gi Gj n).next_missing_index_j
        = Gj.NA_posi.elts.filter (fun v => decide (8 * (n : Int) < v)) := by
  induction n with
  | zero =>
    have hfi : Gi.NA_posi.elts.filter (fun v => decide (8 * ((0 : Nat) : Int) < v))
        = Gi.NA_posi.elts :=
      List.filter_eq_self.mpr (fun v hv => by have := hpi v hv; simp; omega)
    have hfj : Gj.NA_posi.elts.filter (fun v => decide (8 * ((0 : Nat) : Int) < v))
        = Gj.NA_posi.elts :=
      List.filter_eq_self.mpr (fun v hv => by have := hpj v hv; simp; omega)
    rw [hfi, hfj]
    simp [pair_windows, pair_init]
  | succ n ih =>
    obtain ⟨hc, hni, hdi, hnj, hdj⟩ := ih (by omega)
    have hstep := pair_windows_succ signedChar missing_match Gi Gj n
    obtain ⟨hc2, hrest⟩ := window_body_valid signedChar missing_match Gi Gj n
      (pair_windows signedChar missing_match Gi Gj n) hsi hsj (by omega) (by omega) (by omega)
      (by omega) hni hdi hnj hdj _ hstep
    refine ⟨?_, hrest⟩
    rw [hc2, hc]
    have hsplit : 8 * (n + 1) = 8 * n + 8 := by ring
    rw [hsplit, List.range_add, List.countP_append, List.countP_map]
    push_cast
    rfl

/-- The distance stored by a pair unit on valid input: the number of sites below `8 * L` that
count as a mismatch under the policy. -/
theorem pair_distance_valid (signedChar missing_match : Bool) (Gi Gj : Genotype) (L : Nat)
    (hvi : valid_missing L Gi.NA_posi.elts) (hvj : valid_missing L Gj.NA_posi.elts)
    (hi : XLENGTH Gi.snp1 = L ∧ XLENGTH Gi.snp2 = L)
    (hj : XLENGTH Gj.snp1 = L ∧ XLENGTH Gj.snp2 = L) :
    pair_distance signedChar missing_match Gi Gj
      = ((List.range (8 * L)).countP (site_mismatch missing_match Gi Gj) : Nat) := by
  unfold pair_distance
  rw [hi.1]
  exact (pair_windows_valid signedChar missing_match Gi Gj L hvi.1 hvj.1
    (fun v hv => (hvi.2 v hv).1) (fun v hv => (hvj.2 v hv).1) hi.1 hi.2 hj.1 hj.2 L
    (le_refl L)).1

theorem site_mismatch_comm (missing_match : Bool) (G H : Genotype) (g : Nat) :
    site_mismatch missing_match G H g = site_mismatch missing_match H G g := by
  have hz : zyg_differ G H g = zyg_differ H G g := by
    unfold zyg_differ
    by_cases h : zygosity_at G g = zygosity_at H g
    · simp [h]
    · have h2 : ¬ zygosity_at H g = zygosity_at G g := fun e => h e.symm
      simp [h, h2]
  unfold site_mismatch
  rw [hz]
  cases missing_match <;> cases is_missing G g <;> cases is_missing H g <;> rfl

theorem VECTOR_ELT_mem (R_gen : List Genotype) (i : Nat) (hi : i < R_gen.length) :
    VECTOR_ELT R_gen i ∈ R_gen := by
  unfold VECTOR_ELT
  rw [List.getD_eq_getElem _ _ hi]
  exact List.getElem_mem _

/-- On a valid population, every off-diagonal element of the result is the number of sites
that count as a mismatch between the two genotypes under the policy. -/
theorem bitwise_distance_valid (signedChar : Bool) (genlight : List Genotype)
    (missing : Bool) (requested_threads : Int) (L : Nat)
    (hlen : uniform_length genlight L)
    (hval : ∀ G ∈ genlight, valid_missing L G.NA_posi.elts)
    (i j : Nat) (hi : i < genlight.length) (hj : j < genlight.length) (hij : i ≠ j) :
    (bitwise_distance signedChar genlight missing requested_threads)[i * genlight.length + j]?
      = some (((List.range (8 * L)).countP
          (site_mismatch missing (VECTOR_ELT genlight i) (VECTOR_ELT genlight j)) : Nat) : Int) := by
  have mi := VECTOR_ELT_mem genlight i hi
  have mj := VECTOR_ELT_mem genlight j hj
  rw [bitwise_distance_get _ _ _ _ i j hi hj, distance_matrix_apply]
  by_cases h : j < i
  · rw [if_pos ⟨h, hi⟩,
      pair_distance_valid signedChar missing _ _ L (hval _ mi) (hval _ mj) (hlen _ mi)
        (hlen _ mj)]
  · have h2 : i < j := by omega
    rw [if_neg (fun hh => h hh.1), if_pos ⟨h2, hj⟩,
      pair_distance_valid signedChar missing _ _ L (hval _ mj) (hval _ mi) (hlen _ mj)
        (hlen _ mi)]
    congr 2
    apply List.countP_congr
    intro g _
    rw [site_mismatch_comm]

/-! ## Counting sites -/

theorem countP_split {α : Type} (l : List α) (p q : α → Bool) :
    l.countP (fun g => p g || q g) = l.countP p + l.countP (fun g => !(p g) && q g) := by
  induction l with
  | nil => simp
  | cons a l ih =>
    simp only [List.countP_cons, ih]
    cases p a <;> cases q a <;> simp <;> omega

/-- On valid lists, the sites below `8 * L` missing in one genotype or the other are as many
as the distinct entries of the two lists. -/
theorem missing_count_eq (G H : Genotype) (L : Nat)
    (hG : ∀ v ∈ G.NA_posi.elts, 1 ≤ v ∧ v ≤ 8 * (L : Int))
    (hH : ∀ v ∈ H.NA_posi.elts, 1 ≤ v ∧ v ≤ 8 * (L : Int)) :
    (List.range (8 * L)).countP (fun g => is_missing G g || is_missing H g)
      = missing_sites G H := by
  unfold missing_sites
  rw [List.countP_eq_length_filter]
  have hnd : ((List.range (8 * L)).filter (fun g => is_missing G g || is_missing H g)).Nodup :=
    (List.nodup_range _).filter _
  have hinj : Function.Injective (fun g : Nat => (g : Int) + 1) := by
    intro a b h
    simp only at h
    omega
  rw [← List.length_map _ (fun g : Nat => (g : Int) + 1),
    ← List.toFinset_card_of_nodup (hnd.map hinj)]
  congr 1
  ext v
  simp only [List.mem_toFinset, List.mem_map, List.mem_filter, List.mem_range, Finset.mem_union,
    is_missing, Bool.or_eq_true, decide_eq_true_eq]
  constructor
  · rintro ⟨g, ⟨_, hg⟩, rfl⟩
    exact hg
  · intro hv
    have hb : 1 ≤ v ∧ v ≤ 8 * (L : Int) := by
      rcases hv with h | h
      · exact hG v h
      · exact hH v h
    refine ⟨(v - 1).toNat, ⟨by omega, ?_⟩, by omega⟩
    have e : (((v - 1).toNat : Nat) : Int) + 1 = v := by omega
    rw [e]
    exact hv

/-! ## The distance on valid input, per policy -/

/-- C1: under the match policy, on a population of uniform chromosome length `L` whose
missing-index lists are strictly increasing with values in `[1, 8L]`, every element
`d[i][j]` with `i ≠ j` is the number of sites `g < 8L` that are missing in neither sample and
at which the two zygosity states differ; a site missing in either sample adds nothing. -/
theorem match_policy_distance (signedChar : Bool) (genlight : List Genotype)
    (requested_threads : Int) (L : Nat)
    (hlen : uniform_length genlight L)
    (hval : ∀ G ∈ genlight, valid_missing L G.NA_posi.elts)
    (i j : Nat) (hi : i < genlight.length) (hj : j < genlight.length) (hij : i ≠ j) :
    (bitwise_distance signedChar genlight true requested_threads)[i * genlight.length + j]?
      = some ((mismatch_sites (VECTOR_ELT genlight i) (VECTOR_ELT genlight j) L : Nat) : Int) :=
  bitwise_distance_valid signedChar genlight true requested_threads L hlen hval i j hi hj hij

/-- C1 on `trio`: the element of samples 2 and 0. -/
theorem match_policy_distance_witness :
    uniform_length trio 2 ∧ (∀ G ∈ trio, valid_missing 2 G.NA_posi.elts)
      ∧ (bitwise_distance true trio true 0)[2 * trio.length + 0]?
          = some ((mismatch_sites (VECTOR_ELT trio 2) (VECTOR_ELT trio 0) 2 : Nat) : Int) :=
  ⟨by decide, by decide,
    match_policy_distance true trio 0 2 (by decide) (by decide) 2 0 (by decide) (by decide)
      (by decide)⟩

/-- C2: under the mismatch policy, on a population of uniform chromosome length `L` whose
missing-index lists are strictly increasing with values in `[1, 8L]`, every element
`d[i][j]` with `i ≠ j` is the number of distinct sites missing in sample `i` or in sample `j`
plus the number of sites missing in neither at which the zygosity states differ: a site
missing in both, or missing and also differing, is counted once. -/
theorem mismatch_policy_distance (signedChar : Bool) (genlight : List Genotype)
    (requested_threads : Int) (L : Nat)
    (hlen : uniform_length genlight L)
    (hval : ∀ G ∈ genlight, valid_missing L G.NA_posi.elts)
    (i j : Nat) (hi : i < genlight.length) (hj : j < genlight.length) (hij : i ≠ j) :
    (bitwise_distance signedChar genlight false requested_threads)[i * genlight.length + j]?
      = some ((missing_sites (VECTOR_ELT genlight i) (VECTOR_ELT genlight j)
          + mismatch_sites (VECTOR_ELT genlight i) (VECTOR_ELT genlight j) L : Nat) : Int) := by
  rw [bitwise_distance_valid signedChar genlight false requested_threads L hlen hval i j hi hj
    hij]
  have hG := (hval _ (VECTOR_ELT_mem genlight i hi)).2
  have hH := (hval _ (VECTOR_ELT_mem genlight j hj)).2
  rw [← missing_count_eq _ _ L hG hH]
  unfold mismatch_sites
  congr 2
  have hsplit := countP_split (List.range (8 * L))
    (fun g => is_missing (VECTOR_ELT genlight i) g || is_missing (VECTOR_ELT genlight j) g)
    (fun g => zyg_differ (VECTOR_ELT genlight i) (VECTOR_ELT genlight j) g)
  have hleft : (List.range (8 * L)).countP
        (site_mismatch false (VECTOR_ELT genlight i) (VECTOR_ELT genlight j))
      = (List.range (8 * L)).countP
        (fun g => (is_missing (VECTOR_ELT genlight i) g || is_missing (VECTOR_ELT genlight j) g)
          || zyg_differ (VECTOR_ELT genlight i) (VECTOR_ELT genlight j) g) := by
    apply List.countP_congr
    intro g _
    simp [site_mismatch]
  have hright : (List.range (8 * L)).countP
        (fun g => !(is_missing (VECTOR_ELT genlight i) g || is_missing (VECTOR_ELT genlight j) g)
          && zyg_differ (VECTOR_ELT genlight i) (VECTOR_ELT genlight j) g)
      = (List.range (8 * L)).countP
        (fun g => !(is_missing (VECTOR_ELT genlight i) g)
          && !(is_missing (VECTOR_ELT genlight j) g)
          && zyg_differ (VECTOR_ELT genlight i) (VECTOR_ELT genlight j) g) := by
    apply List.countP_congr
    intro g _
    cases is_missing (VECTOR_ELT genlight i) g <;>
      cases is_missing (VECTOR_ELT genlight j) g <;> simp
  rw [hleft, hsplit, hright]

/-- C2 on `trio`: the element of samples 0 and 2. -/
theorem mismatch_policy_distance_witness :
    uniform_length trio 2 ∧ (∀ G ∈ trio, valid_missing 2 G.NA_posi.elts)
      ∧ (bitwise_distance false trio false 4)[0 * trio.length + 2]?
          = some ((missing_sites (VECTOR_ELT trio 0) (VECTOR_ELT trio 2)
              + mismatch_sites (VECTOR_ELT trio 0) (VECTOR_ELT trio 2) 2 : Nat) : Int) :=
  ⟨by decide, by decide,
    mismatch_policy_distance false trio 4 2 (by decide) (by decide) 0 2 (by decide) (by decide)
      (by decide)⟩

theorem site_mismatch_no_missing (missing_match : Bool) (G H : Genotype)
    (hG : G.NA_posi.elts = []) (hH : H.NA_posi.elts = []) (g : Nat) :
    site_mismatch missing_match G H g = zyg_differ G H g := by
  cases missing_match <;> simp [site_mismatch, is_missing, hG, hH]

theorem valid_missing_nil (L : Nat) : valid_missing L [] :=
  ⟨List.sorted_nil, fun _ hv => absurd hv (List.not_mem_nil _)⟩

theorem pair_distance_no_missing (signedChar missing_match : Bool) (Gi Gj : Genotype) (L : Nat)
    (hGi : Gi.NA_posi.elts = []) (hGj : Gj.NA_posi.elts = [])
    (hi : XLENGTH Gi.snp1 = L ∧ XLENGTH Gi.snp2 = L)
    (hj : XLENGTH Gj.snp1 = L ∧ XLENGTH Gj.snp2 = L) :
    pair_distance signedChar missing_match Gi Gj = (raw_mismatch_sites Gi Gj L : Nat) := by
  rw [pair_distance_valid signedChar missing_match Gi Gj L
    (hGi ▸ valid_missing_nil L) (hGj ▸ valid_missing_nil L) hi hj]
  unfold raw_mismatch_sites
  congr 1
  apply List.countP_congr
  intro g _
  rw [site_mismatch_no_missing missing_match Gi Gj hGi hGj]

theorem zyg_differ_comm (G H : Genotype) (g : Nat) : zyg_differ G H g = zyg_differ H G g := by
  unfold zyg_differ
  by_cases h : zygosity_at G g = zygosity_at H g
  · simp [h]
  · have h2 : ¬ zygosity_at H g = zygosity_at G g := fun e => h e.symm
    simp [h, h2]

/-- A masking loop over an empty list leaves its variables as they are. -/
theorem mask_loop_zero (missing_match : Bool) (R_nap : RVec Int) (k : Nat) (s : Scan) :
    mask_loop missing_match R_nap 0 k s = s := by
  simp [mask_loop, mask_while]

theorem pair_windows_no_missing (signedChar : Bool) (Gi Gj : Genotype)
    (hGi : Gi.NA_posi.elts = []) (hGj : Gj.NA_posi.elts = []) (n : Nat) :
    pair_windows signedChar true Gi Gj n = pair_windows signedChar false Gi Gj n := by
  have ei : XLENGTH Gi.NA_posi = 0 := by simp [XLENGTH, hGi]
  have ej : XLENGTH Gj.NA_posi = 0 := by simp [XLENGTH, hGj]
  induction n with
  | zero => rfl
  | succ n ih =>
    rw [pair_windows_succ, pair_windows_succ, ih]
    simp only [window_body, ei, ej, mask_loop_zero]

/-- C3: when every missing-index list is empty, the returned matrix is the same under both
policies, and (the population having uniform chromosome length `L`) every element `d[i][j]`
with `i ≠ j` is the raw number of sites, over the bits of all `L` bytes, at which the two
zygosity states differ. -/
theorem no_missing_reduction (signedChar : Bool) (genlight : List Genotype)
    (requested_threads : Int)
    (hempty : ∀ G ∈ genlight, G.NA_posi.elts = []) :
    bitwise_distance signedChar genlight true requested_threads
        = bitwise_distance signedChar genlight false requested_threads
    ∧ ∀ (L : Nat), uniform_length genlight L →
        ∀ (missing : Bool) (i j : Nat), i < genlight.length → j < genlight.length → i ≠ j →
          (bitwise_distance signedChar genlight missing requested_threads)[
              i * genlight.length + j]?
            = some ((raw_mismatch_sites (VECTOR_ELT genlight i) (VECTOR_ELT genlight j) L : Nat)
                : Int) := by
  refine ⟨?_, ?_⟩
  · have hsame : ∀ (a b : Nat), a < genlight.length → b < genlight.length →
        pair_distance signedChar true (VECTOR_ELT genlight a) (VECTOR_ELT genlight b)
          = pair_distance signedChar false (VECTOR_ELT genlight a) (VECTOR_ELT genlight b) := by
      intro a b ha hb
      unfold pair_distance
      rw [pair_windows_no_missing signedChar _ _
        (hempty _ (VECTOR_ELT_mem genlight a ha)) (hempty _ (VECTOR_ELT_mem genlight b hb))]
    simp only [bitwise_distance]
    apply List.map_congr_left
    intro t _
    rw [distance_matrix_apply, distance_matrix_apply]
    split_ifs with h1 h2
    · exact hsame _ _ h1.2 (by omega)
    · exact hsame _ _ h2.2 (by omega)
    · rfl
  · intro L hlen
    have hpair : ∀ (missing : Bool) (a b : Nat), a < genlight.length → b < genlight.length →
        pair_distance signedChar missing (VECTOR_ELT genlight a) (VECTOR_ELT genlight b)
          = (raw_mismatch_sites (VECTOR_ELT genlight a) (VECTOR_ELT genlight b) L : Nat) := by
      intro missing a b ha hb
      have ma := VECTOR_ELT_mem genlight a ha
      have mb := VECTOR_ELT_mem genlight b hb
      exact pair_distance_no_missing signedChar missing _ _ L (hempty _ ma) (hempty _ mb)
        (hlen _ ma) (hlen _ mb)
    intro missing i j hi hj hij
    rw [bitwise_distance_get _ _ _ _ i j hi hj, distance_matrix_apply]
    by_cases h : j < i
    · rw [if_pos ⟨h, hi⟩, hpair missing i j hi hj]
    · have h2 : i < j := by omega
      rw [if_neg (fun hh => h hh.1), if_pos ⟨h2, hj⟩, hpair missing j i hj hi]
      unfold raw_mismatch_sites
      congr 2
      apply List.countP_congr
      intro g _
      rw [zyg_differ_comm]

/-- C3 on the hand-computed scenario, whose two samples have no missing site: element (0, 1)
under the mismatch policy. -/
theorem no_missing_reduction_witness :
    (∀ G ∈ scenario (fun _ => 0) (fun _ => 0), G.NA_posi.elts = [])
      ∧ bitwise_distance true (scenario (fun _ => 0) (fun _ => 0)) true 0
          = bitwise_distance true (scenario (fun _ => 0) (fun _ => 0)) false 0
      ∧ (bitwise_distance true (scenario (fun _ => 0) (fun _ => 0)) false 0)[
            0 * (scenario (fun _ => 0) (fun _ => 0)).length + 1]?
          = some ((raw_mismatch_sites (VECTOR_ELT (scenario (fun _ => 0) (fun _ => 0)) 0)
              (VECTOR_ELT (scenario (fun _ => 0) (fun _ => 0)) 1) 1 : Nat) : Int) :=
  ⟨by decide,
    (no_missing_reduction true (scenario (fun _ => 0) (fun _ => 0)) 0 (by decide)).1,
    (no_missing_reduction true (scenario (fun _ => 0) (fun _ => 0)) 0 (by decide)).2 1
      (by decide) false 0 1 (by decide) (by decide) (by decide)⟩

/-! ## Properties of the matrix on every input -/

/-- Every window adds a value between 0 and 8 to the accumulator. -/
theorem get_zeros_bounds (signedChar : Bool) (b : Nat) :
    0 ≤ get_zeros (char_to_int signedChar b) ∧ get_zeros (char_to_int signedChar b) ≤ 8 := by
  rw [get_zeros_eq]
  have := zero_bits_le b
  omega

theorem pair_windows_bounds (signedChar missing_match : Bool) (Gi Gj : Genotype) (n : Nat) :
    0 ≤ (pair_windows signedChar missing_match Gi Gj n).cur_distance
      ∧ (pair_windows signedChar missing_match Gi Gj n).cur_distance ≤ 8 * (n : Int) := by
  induction n with
  | zero => simp [pair_windows, pair_init]
  | succ n ih =>
    rw [pair_windows_succ]
    simp only [window_body]
    have hb := get_zeros_bounds signedChar
      (mask_loop missing_match Gj.NA_posi (XLENGTH Gj.NA_posi) n
        ⟨(mask_loop missing_match Gi.NA_posi (XLENGTH Gi.NA_posi) n
            ⟨get_similarity_set
              (fill_zygosity
                { c1 := Gi.snp1.read n % 256, c2 := Gi.snp2.read n % 256,
                  cx := 0, ca := 0, cn := 0 })
              (fill_zygosity
                { c1 := Gj.snp1.read n % 256, c2 := Gj.snp2.read n % 256,
                  cx := 0, ca := 0, cn := 0 }),
              (pair_windows signedChar missing_match Gi Gj n).next_missing_index_i,
              (pair_windows signedChar missing_match Gi Gj n).next_missing_i⟩).tmp_sim_set,
          (pair_windows signedChar missing_match Gi Gj n).next_missing_index_j,
          (pair_windows signedChar missing_match Gi Gj n).next_missing_j⟩).tmp_sim_set
    push_cast
    omega

theorem pair_distance_bounds (signedChar missing_match : Bool) (Gi Gj : Genotype) :
    0 ≤ pair_distance signedChar missing_match Gi Gj
      ∧ pair_distance signedChar missing_match Gi Gj ≤ 8 * (XLENGTH Gi.snp1 : Int) :=
  pair_windows_bounds signedChar missing_match Gi Gj (XLENGTH Gi.snp1)

theorem bits_le_refl (x : Nat) : bits_le x x := fun _ _ h => h

theorem zero_bits_anti (x y : Nat) (h : bits_le x y) : zero_bits y ≤ zero_bits x := by
  unfold zero_bits
  apply List.countP_mono_left
  intro u hu hy
  have hu8 : u < 8 := List.mem_range.mp hu
  cases hx : x.testBit u
  · rfl
  · have := h u hu8 hx
    simp [this] at hy

/-- The two policies drive a masking loop through the same pointer positions, and the byte of
the mismatch policy stays below the byte of the match policy. -/
theorem mask_while_policy (R_nap : RVec Int) (nap_length k : Nat) :
    ∀ (fuel : Nat) (sf st : Scan),
      sf.next_missing_index = st.next_missing_index → sf.next_missing = st.next_missing →
      bits_le sf.tmp_sim_set st.tmp_sim_set →
      (mask_while false R_nap nap_length k fuel sf).next_missing_index
          = (mask_while true R_nap nap_length k fuel st).next_missing_index
      ∧ (mask_while false R_nap nap_length k fuel sf).next_missing
          = (mask_while true R_nap nap_length k fuel st).next_missing
      ∧ bits_le (mask_while false R_nap nap_length k fuel sf).tmp_sim_set
          (mask_while true R_nap nap_length k fuel st).tmp_sim_set := by
  intro fuel
  induction fuel with
  | zero => intro sf st h1 h2 h3; exact ⟨h1, h2, h3⟩
  | succ fuel ih =>
    intro sf st h1 h2 h3
    have hg : mask_guard nap_length k sf = mask_guard nap_length k st := by
      simp [mask_guard, h1, h2]
    simp only [mask_while, hg]
    cases hgt : mask_guard nap_length k st
    · simp only [Bool.false_eq_true, if_false]
      exact ⟨h1, h2, h3⟩
    · simp only [if_true]
      apply ih
      · simp [mask_body, h1]
      · simp [mask_body, h1]
      · intro u hu hbit
        simp only [mask_body, Bool.false_eq_true, if_false, if_true, mod256_testBit,
          Nat.testBit_and, Nat.testBit_or, char_not_testBit, hu, decide_True, Bool.true_and,
          Bool.and_eq_true, Bool.or_eq_true] at hbit ⊢
        exact Or.inl (h3 u hu hbit.1)

theorem mask_loop_policy (R_nap : RVec Int) (nap_length k : Nat) (sf st : Scan)
    (h1 : sf.next_missing_index = st.next_missing_index)
    (h2 : sf.next_missing = st.next_missing) (h3 : bits_le sf.tmp_sim_set st.tmp_sim_set) :
    (mask_loop false R_nap nap_length k sf).next_missing_index
        = (mask_loop true R_nap nap_length k st).next_missing_index
    ∧ (mask_loop false R_nap nap_length k sf).next_missing
        = (mask_loop true R_nap nap_length k st).next_missing
    ∧ bits_le (mask_loop false R_nap nap_length k sf).tmp_sim_set
        (mask_loop true R_nap nap_length k st).tmp_sim_set := by
  unfold mask_loop
  rw [h1]
  exact mask_while_policy R_nap nap_length k _ sf st h1 h2 h3

/-- After any number of windows the two policies have the same scan pointers, and the
accumulator of the mismatch policy is at least the one of the match policy. -/
theorem pair_windows_policy (signedChar : Bool) (Gi Gj : Genotype) (n : Nat) :
    (pair_windows signedChar false Gi Gj n).next_missing_index_i
        = (pair_windows signedChar true Gi Gj n).next_missing_index_i
    ∧ (pair_windows signedChar false Gi Gj n).next_missing_i
        = (pair_windows signedChar true Gi Gj n).next_missing_i
    ∧ (pair_windows signedChar false Gi Gj n).next_missing_index_j
        = (pair_windows signedChar true Gi Gj n).next_missing_index_j
    ∧ (pair_windows signedChar false Gi Gj n).next_missing_j
        = (pair_windows signedChar true Gi Gj n).next_missing_j
    ∧ (pair_windows signedChar true Gi Gj n).cur_distance
        ≤ (pair_windows signedChar false Gi Gj n).cur_distance := by
  induction n with
  | zero => simp [pair_windows]
  | succ n ih =>
    obtain ⟨a1, a2, a3, a4, a5⟩ := ih
    rw [pair_windows_succ, pair_windows_succ]
    have hI := mask_loop_policy Gi.NA_posi (XLENGTH Gi.NA_posi) n
      ⟨get_similarity_set
        (fill_zygosity
          { c1 := Gi.snp1.read n % 256, c2 := Gi.snp2.read n % 256, cx := 0, ca := 0, cn := 0 })
        (fill_zygosity
          { c1 := Gj.snp1.read n % 256, c2 := Gj.snp2.read n % 256, cx := 0, ca := 0, cn := 0 }),
        (pair_windows signedChar false Gi Gj n).next_missing_index_i,
        (pair_windows signedChar false Gi Gj n).next_missing_i⟩
      ⟨get_similarity_set
        (fill_zygosity
          { c1 := Gi.snp1.read n % 256, c2 := Gi.snp2.read n % 256, cx := 0, ca := 0, cn := 0 })
        (fill_zygosity
          { c1 := Gj.snp1.read n % 256, c2 := Gj.snp2.read n % 256, cx := 0, ca := 0, cn := 0 }),
        (pair_windows signedChar true Gi Gj n).next_missing_index_i,
        (pair_windows signedChar true Gi Gj n).next_missing_i⟩ a1 a2 (bits_le_refl _)
    have hJ := mask_loop_policy Gj.NA_posi (XLENGTH Gj.NA_posi) n
      ⟨_, (pair_windows signedChar false Gi Gj n).next_missing_index_j,
        (pair_windows signedChar false Gi Gj n).next_missing_j⟩
      ⟨_, (pair_windows signedChar true Gi Gj n).next_missing_index_j,
        (pair_windows signedChar true Gi Gj n).next_missing_j⟩ a3 a4 hI.2.2
    refine ⟨hI.1, hI.2.1, hJ.1, hJ.2.1, ?_⟩
    simp only [window_body]
    rw [get_zeros_eq, get_zeros_eq]
    exact Int.add_le_add a5 (Int.ofNat_le.mpr (zero_bits_anti _ _ hJ.2.2))

theorem pair_distance_policy (signedChar : Bool) (Gi Gj : Genotype) :
    pair_distance signedChar true Gi Gj ≤ pair_distance signedChar false Gi Gj :=
  (pair_windows_policy signedChar Gi Gj (XLENGTH Gi.snp1)).2.2.2.2

theorem distance_matrix_symm (signedChar missing_match : Bool) (R_gen : List Genotype)
    (a b : Nat) :
    distance_matrix signedChar missing_match R_gen a b
      = distance_matrix signedChar missing_match R_gen b a := by
  rw [distance_matrix_apply, distance_matrix_apply]
  split_ifs <;> first
    | rfl
    | (exfalso; omega)

/-- C4: for every input and all `i`, `j` below the number of genotypes, the returned matrix
has `d[i][j] = d[j][i]`. -/
theorem distance_symmetric (signedChar : Bool) (genlight : List Genotype) (missing : Bool)
    (requested_threads : Int) (i j : Nat) (hi : i < genlight.length)
    (hj : j < genlight.length) :
    ∃ d : Int,
      (bitwise_distance signedChar genlight missing requested_threads)[
          i * genlight.length + j]? = some d
      ∧ (bitwise_distance signedChar genlight missing requested_threads)[
          j * genlight.length + i]? = some d := by
  refine ⟨distance_matrix signedChar missing genlight i j, ?_, ?_⟩
  · exact bitwise_distance_get _ _ _ _ i j hi hj
  · rw [bitwise_distance_get _ _ _ _ j i hj hi, distance_matrix_symm]

/-- C4 on `trio`: cells (0, 2) and (2, 0). -/
theorem distance_symmetric_witness :
    (0 < trio.length ∧ 2 < trio.length)
      ∧ ∃ d : Int, (bitwise_distance true trio false 1)[0 * trio.length + 2]? = some d
          ∧ (bitwise_distance true trio false 1)[2 * trio.length + 0]? = some d :=
  ⟨by decide, distance_symmetric true trio false 1 0 2 (by decide) (by decide)⟩

/-- C5: for every input, policy and `i` below the number of genotypes, the returned matrix
has `d[i][i] = 0`; the loop over `j` of any outer index leaves every diagonal cell as it
was, so the cell keeps the zero of its allocation. -/
theorem diagonal_zero (signedChar : Bool) (genlight : List Genotype) (missing : Bool)
    (requested_threads : Int) (i : Nat) (hi : i < genlight.length) :
    (bitwise_distance signedChar genlight missing requested_threads)[
        i * genlight.length + i]? = some 0
    ∧ ∀ (m : Nat → Nat → Int) (i2 a : Nat),
        inner_loop signedChar missing genlight i2 m a a = m a a := by
  refine ⟨?_, ?_⟩
  · rw [bitwise_distance_get _ _ _ _ i i hi hi, distance_matrix_apply]
    simp
  · intro m i2 a
    rw [inner_loop_apply]
    split_ifs <;> first
      | rfl
      | (exfalso; omega)

/-- C5 on `trio`: sample 0, which has missing sites, under the mismatch policy. -/
theorem diagonal_zero_witness :
    0 < trio.length
      ∧ ((bitwise_distance true trio false 0)[0 * trio.length + 0]? = some 0
        ∧ ∀ (m : Nat → Nat → Int) (i2 a : Nat), inner_loop true false trio i2 m a a = m a a) :=
  ⟨by decide, diagonal_zero true trio false 0 0 (by decide)⟩

/-- C6: for every input, policy and cell, `0 ≤ d[i][j] ≤ chr_length * 8`, where `chr_length`
is the length read from the outer genotype of the pair (the common length `L` of a uniform
population), because every window adds a value between 0 and 8 to the accumulator. -/
theorem distance_bounds (signedChar : Bool) (genlight : List Genotype) (missing : Bool)
    (requested_threads : Int) (i j : Nat) (hi : i < genlight.length)
    (hj : j < genlight.length) :
    (∀ b : Nat, 0 ≤ get_zeros (char_to_int signedChar b)
        ∧ get_zeros (char_to_int signedChar b) ≤ 8)
    ∧ ∃ d : Int,
        (bitwise_distance signedChar genlight missing requested_threads)[
            i * genlight.length + j]? = some d
        ∧ 0 ≤ d
        ∧ d ≤ 8 * (XLENGTH (VECTOR_ELT genlight (max i j)).snp1 : Int)
        ∧ ∀ L : Nat, uniform_length genlight L → d ≤ 8 * (L : Int) := by
  refine ⟨get_zeros_bounds signedChar, distance_matrix signedChar missing genlight i j,
    bitwise_distance_get _ _ _ _ i j hi hj, ?_⟩
  have hmax : max i j < genlight.length := max_lt hi hj
  have key : 0 ≤ distance_matrix signedChar missing genlight i j
      ∧ distance_matrix signedChar missing genlight i j
          ≤ 8 * (XLENGTH (VECTOR_ELT genlight (max i j)).snp1 : Int) := by
    rw [distance_matrix_apply]
    by_cases h1 : j < i
    · rw [if_pos ⟨h1, hi⟩, max_eq_left (le_of_lt h1)]
      exact pair_distance_bounds _ _ _ _
    · by_cases h2 : i < j
      · rw [if_neg (fun hh => h1 hh.1), if_pos ⟨h2, hj⟩, max_eq_right (le_of_lt h2)]
        exact pair_distance_bounds _ _ _ _
      · rw [if_neg (fun hh => h1 hh.1), if_neg (fun hh => h2 hh.1)]
        exact ⟨le_refl 0, by positivity⟩
  refine ⟨key.1, key.2, ?_⟩
  intro L hL
  have := (hL _ (VECTOR_ELT_mem genlight (max i j) hmax)).1
  rw [this] at key
  exact key.2

/-- C6 on `trio`: cell (1, 2). -/
theorem distance_bounds_witness :
    (1 < trio.length ∧ 2 < trio.length)
      ∧ ((∀ b : Nat, 0 ≤ get_zeros (char_to_int true b) ∧ get_zeros (char_to_int true b) ≤ 8)
        ∧ ∃ d : Int, (bitwise_distance true trio false 0)[1 * trio.length + 2]? = some d
            ∧ 0 ≤ d ∧ d ≤ 8 * (XLENGTH (VECTOR_ELT trio (max 1 2)).snp1 : Int)
            ∧ ∀ L : Nat, uniform_length trio L → d ≤ 8 * (L : Int)) :=
  ⟨by decide, distance_bounds true trio false 0 1 2 (by decide) (by decide)⟩

/-- C7: for every input and every cell, the distance under the mismatch policy (false) is at
least the distance of the same cell under the match policy (true). -/
theorem policy_monotone (signedChar : Bool) (genlight : List Genotype)
    (requested_threads : Int) (i j : Nat) (hi : i < genlight.length)
    (hj : j < genlight.length) :
    ∃ dt df : Int,
      (bitwise_distance signedChar genlight true requested_threads)[
          i * genlight.length + j]? = some dt
      ∧ (bitwise_distance signedChar genlight false requested_threads)[
          i * genlight.length + j]? = some df
      ∧ dt ≤ df := by
  refine ⟨distance_matrix signedChar true genlight i j,
    distance_matrix signedChar false genlight i j,
    bitwise_distance_get _ _ _ _ i j hi hj, bitwise_distance_get _ _ _ _ i j hi hj, ?_⟩
  rw [distance_matrix_apply, distance_matrix_apply]
  split_ifs
  · exact pair_distance_policy _ _ _
  · exact pair_distance_policy _ _ _
  · exact le_refl 0

/-- C7 on `trio`: cell (2, 1). -/
theorem policy_monotone_witness :
    (2 < trio.length ∧ 1 < trio.length)
      ∧ ∃ dt df : Int, (bitwise_distance true trio true 0)[2 * trio.length + 1]? = some dt
          ∧ (bitwise_distance true trio false 0)[2 * trio.length + 1]? = some df ∧ dt ≤ df :=
  ⟨by decide, policy_monotone true trio 0 2 1 (by decide) (by decide)⟩

/-! ## The hand-computed scenario -/

theorem scenario_uniform (p0 p1 : Nat → Int) : uniform_length (scenario p0 p1) 1 := by
  intro G hG
  simp only [scenario, List.mem_cons, List.mem_singleton, List.not_mem_nil, or_false] at hG
  rcases hG with h | h <;> subst h <;> exact ⟨rfl, rfl⟩

theorem scenario_valid (p0 p1 : Nat → Int) :
    ∀ G ∈ scenario p0 p1, valid_missing 1 G.NA_posi.elts := by
  intro G hG
  simp only [scenario, List.mem_cons, List.mem_singleton, List.not_mem_nil, or_false] at hG
  rcases hG with h | h <;> subst h <;> exact valid_missing_nil 1

/-- What counts as a mismatch between two samples does not look at the values past the end of
their missing-index lists. -/
theorem site_mismatch_past (mm : Bool) (a b a2 b2 : List Nat) (nap nap2 : List Int)
    (p p2 : Nat → Int) :
    site_mismatch mm (sample a b nap p) (sample a2 b2 nap2 p2)
      = site_mismatch mm (sample a b nap (fun _ => 0)) (sample a2 b2 nap2 (fun _ => 0)) := rfl

theorem scenario_count (mm : Bool) (p0 p1 : Nat → Int) (i j : Nat)
    (h : (i = 0 ∧ j = 1) ∨ (i = 1 ∧ j = 0)) :
    (List.range (8 * 1)).countP
      (site_mismatch mm (VECTOR_ELT (scenario p0 p1) i) (VECTOR_ELT (scenario p0 p1) j)) = 1 := by
  rcases h with ⟨rfl, rfl⟩ | ⟨rfl, rfl⟩ <;> cases mm <;>
    simp only [VECTOR_ELT, scenario, List.getD_cons_zero, List.getD_cons_succ] <;>
    rw [site_mismatch_past] <;> decide

/-- C8, the similarity byte as the claim states it: the byte returned by `get_similarity_set`
in the hand-computed scenario is not `0b01111111`. -/
theorem scenario_similarity_not_0b01111111 :
    get_similarity_set
        (fill_zygosity { c1 := 0b00000001, c2 := 0b00000000, cx := 0, ca := 0, cn := 0 })
        (fill_zygosity { c1 := 0b00000000, c2 := 0b00000000, cx := 0, ca := 0, cn := 0 })
      ≠ 0b01111111 := by
  decide

/-- C8 as amended: in the hand-computed scenario sample 0 is heterozygous at bit 0 and
homozygous recessive at the other seven bits, sample 1 is homozygous recessive at all eight
bits, the similarity byte is `0b11111110` (only bit 0, the least significant bit, is zero),
`get_zeros` of it is 1, and `d[0][1] = d[1][0] = 1`, whatever the policy, the signedness of
`char`, the thread count and the values read past the empty missing-index lists. -/
theorem hand_computed_scenario (signedChar missing : Bool) (requested_threads : Int)
    (past0 past1 : Nat → Int) :
    (List.range 8).map (zygosity_at (VECTOR_ELT (scenario past0 past1) 0))
        = [ZygState.heterozygous, ZygState.homozygous_recessive, ZygState.homozygous_recessive,
            ZygState.homozygous_recessive, ZygState.homozygous_recessive,
            ZygState.homozygous_recessive, ZygState.homozygous_recessive,
            ZygState.homozygous_recessive]
    ∧ (List.range 8).map (zygosity_at (VECTOR_ELT (scenario past0 past1) 1))
        = List.replicate 8 ZygState.homozygous_recessive
    ∧ fill_zygosity { c1 := 0b00000001, c2 := 0b00000000, cx := 0, ca := 0, cn := 0 }
        = { c1 := 0b00000001, c2 := 0b00000000, cx := 0b00000001, ca := 0b00000000,
            cn := 0b11111110 }
    ∧ fill_zygosity { c1 := 0b00000000, c2 := 0b00000000, cx := 0, ca := 0, cn := 0 }
        = { c1 := 0b00000000, c2 := 0b00000000, cx := 0b00000000, ca := 0b00000000,
            cn := 0b11111111 }
    ∧ get_similarity_set
          (fill_zygosity { c1 := 0b00000001, c2 := 0b00000000, cx := 0, ca := 0, cn := 0 })
          (fill_zygosity { c1 := 0b00000000, c2 := 0b00000000, cx := 0, ca := 0, cn := 0 })
        = 0b11111110
    ∧ get_zeros (char_to_int signedChar 0b11111110) = 1
    ∧ (bitwise_distance signedChar (scenario past0 past1) missing requested_threads)[
          0 * (scenario past0 past1).length + 1]? = some 1
    ∧ (bitwise_distance signedChar (scenario past0 past1) missing requested_threads)[
          1 * (scenario past0 past1).length + 0]? = some 1 := by
  have h01 := bitwise_distance_valid signedChar (scenario past0 past1) missing
    requested_threads 1 (scenario_uniform past0 past1) (scenario_valid past0 past1) 0 1
    (by simp [scenario]) (by simp [scenario]) (by decide)
  have h10 := bitwise_distance_valid signedChar (scenario past0 past1) missing
    requested_threads 1 (scenario_uniform past0 past1) (scenario_valid past0 past1) 1 0
    (by simp [scenario]) (by simp [scenario]) (by decide)
  rw [scenario_count missing past0 past1 0 1 (Or.inl ⟨rfl, rfl⟩)] at h01
  rw [scenario_count missing past0 past1 1 0 (Or.inr ⟨rfl, rfl⟩)] at h10
  have hz0 : zygosity_at (VECTOR_ELT (scenario past0 past1) 0)
      = zygosity_at (sample [0b00000001] [0b00000000] [] (fun _ => 0)) := rfl
  have hz1 : zygosity_at (VECTOR_ELT (scenario past0 past1) 1)
      = zygosity_at (sample [0b00000000] [0b00000000] [] (fun _ => 0)) := rfl
  rw [hz0, hz1]
  refine ⟨by decide, by decide, by decide, by decide, by decide, ?_, h01, h10⟩
  cases signedChar <;> decide

/-! ## The zygosity masks and the similarity byte -/

theorem testBit_255 (i : Nat) : (255 : Nat).testBit i = decide (i < 8) := by
  have h : (255 : Nat) = 2 ^ 8 - 1 := by norm_num
  rw [h, Nat.testBit_two_pow_sub_one]

theorem lt_256_pow (x : Nat) (h : x < 256) : x < 2 ^ 8 := by
  have e : (2 : Nat) ^ 8 = 256 := by norm_num
  rw [e]; exact h

theorem state_bool (a b : Bool) :
    ((a ^^ b) = decide (zyg_state a b = ZygState.heterozygous))
    ∧ ((a && b) = decide (zyg_state a b = ZygState.homozygous_dominant))
    ∧ ((!(a || b)) = decide (zyg_state a b = ZygState.homozygous_recessive)) := by
  revert a b
  decide

/-- The three masks of a filled struct at bit `u`, in terms of the zygosity state of the two
chromosome bits. -/
theorem fill_zygosity_state (z : zygosity) (u : Nat) (hu : u < 8) :
    ((fill_zygosity z).cx.testBit u = decide (byte_state z.c1 z.c2 u = ZygState.heterozygous))
    ∧ ((fill_zygosity z).ca.testBit u
        = decide (byte_state z.c1 z.c2 u = ZygState.homozygous_dominant))
    ∧ ((fill_zygosity z).cn.testBit u
        = decide (byte_state z.c1 z.c2 u = ZygState.homozygous_recessive)) := by
  simp only [fill_zygosity, byte_state, mod256_testBit, char_not_testBit, Nat.testBit_xor,
    Nat.testBit_and, Nat.testBit_or, hu, decide_True, Bool.true_and]
  exact state_bool _ _

/-- C9: for all byte values `c1` and `c2`, `fill_zygosity` leaves `c1` and `c2` unchanged and
sets `cx = c1 XOR c2`, `ca = c1 AND c2`, `cn = NOT (c1 OR c2)` as 8-bit values; the three
masks are pairwise disjoint, their OR is `0xFF`, and at each of the 8 bit positions exactly
one of them has its bit set. -/
theorem fill_zygosity_masks (z : zygosity) (h1 : z.c1 < 256) (h2 : z.c2 < 256) :
    (fill_zygosity z).c1 = z.c1 ∧ (fill_zygosity z).c2 = z.c2
    ∧ (fill_zygosity z).cx = z.c1 ^^^ z.c2
    ∧ (fill_zygosity z).ca = z.c1 &&& z.c2
    ∧ (fill_zygosity z).cn = 255 - (z.c1 ||| z.c2)
    ∧ (fill_zygosity z).cx &&& (fill_zygosity z).ca = 0
    ∧ (fill_zygosity z).cx &&& (fill_zygosity z).cn = 0
    ∧ (fill_zygosity z).ca &&& (fill_zygosity z).cn = 0
    ∧ (fill_zygosity z).cx ||| (fill_zygosity z).ca ||| (fill_zygosity z).cn = 0xFF
    ∧ ∀ u, u < 8 →
        ((fill_zygosity z).cx.testBit u = true ∧ (fill_zygosity z).ca.testBit u = false
            ∧ (fill_zygosity z).cn.testBit u = false)
        ∨ ((fill_zygosity z).cx.testBit u = false ∧ (fill_zygosity z).ca.testBit u = true
            ∧ (fill_zygosity z).cn.testBit u = false)
        ∨ ((fill_zygosity z).cx.testBit u = false ∧ (fill_zygosity z).ca.testBit u = false
            ∧ (fill_zygosity z).cn.testBit u = true) := by
  have hx : (z.c1 ^^^ z.c2) % 256 = z.c1 ^^^ z.c2 :=
    Nat.mod_eq_of_lt (by
      have := Nat.xor_lt_two_pow (lt_256_pow _ h1) (lt_256_pow _ h2)
      norm_num at this; exact this)
  have ha : (z.c1 &&& z.c2) % 256 = z.c1 &&& z.c2 :=
    Nat.mod_eq_of_lt (by
      have := Nat.and_lt_two_pow z.c1 (lt_256_pow _ h2)
      norm_num at this; exact this)
  have ho : (z.c1 ||| z.c2) % 256 = z.c1 ||| z.c2 :=
    Nat.mod_eq_of_lt (by
      have := Nat.or_lt_two_pow (lt_256_pow _ h1) (lt_256_pow _ h2)
      norm_num at this; exact this)
  refine ⟨rfl, rfl, hx, ha, ?_, ?_, ?_, ?_, ?_, ?_⟩
  · show char_not (z.c1 ||| z.c2) = 255 - (z.c1 ||| z.c2)
    unfold char_not
    rw [ho]
  · apply Nat.eq_of_testBit_eq
    intro i
    simp only [fill_zygosity, Nat.testBit_and, Nat.testBit_xor, mod256_testBit,
      Nat.zero_testBit]
    cases decide (i < 8) <;> cases z.c1.testBit i <;> cases z.c2.testBit i <;> rfl
  · apply Nat.eq_of_testBit_eq
    intro i
    simp only [fill_zygosity, Nat.testBit_and, Nat.testBit_xor, Nat.testBit_or, mod256_testBit,
      char_not_testBit, Nat.zero_testBit]
    cases decide (i < 8) <;> cases z.c1.testBit i <;> cases z.c2.testBit i <;> rfl
  · apply Nat.eq_of_testBit_eq
    intro i
    simp only [fill_zygosity, Nat.testBit_and, Nat.testBit_or, mod256_testBit,
      char_not_testBit, Nat.zero_testBit]
    cases decide (i < 8) <;> cases z.c1.testBit i <;> cases z.c2.testBit i <;> rfl
  · apply Nat.eq_of_testBit_eq
    intro i
    simp only [fill_zygosity, Nat.testBit_and, Nat.testBit_xor, Nat.testBit_or, mod256_testBit,
      char_not_testBit, testBit_255]
    cases decide (i < 8) <;> cases z.c1.testBit i <;> cases z.c2.testBit i <;> rfl
  · intro u hu
    simp only [fill_zygosity, Nat.testBit_and, Nat.testBit_xor, Nat.testBit_or, mod256_testBit,
      char_not_testBit, hu, decide_True, Bool.true_and]
    cases z.c1.testBit u <;> cases z.c2.testBit u <;> decide

/-- C9 on the bytes `0b10110001` and `0b00110101`. -/
theorem fill_zygosity_masks_witness :
    ((0b10110001 : Nat) < 256 ∧ (0b00110101 : Nat) < 256)
      ∧ (fill_zygosity ⟨0b10110001, 0b00110101, 0, 0, 0⟩).cx = 0b10110001 ^^^ 0b00110101
      ∧ (fill_zygosity ⟨0b10110001, 0b00110101, 0, 0, 0⟩).cn
          = 255 - (0b10110001 ||| 0b00110101) :=
  ⟨by decide,
    (fill_zygosity_masks ⟨0b10110001, 0b00110101, 0, 0, 0⟩ (by decide) (by decide)).2.2.1,
    (fill_zygosity_masks ⟨0b10110001, 0b00110101, 0, 0, 0⟩ (by decide) (by decide)).2.2.2.2.1⟩

/-- C10: for two structs filled by `fill_zygosity` from arbitrary bytes, `get_similarity_set`
returns `(cx AND cx') OR (ca AND ca') OR (cn AND cn')`, and bit `b` of the result is 1 exactly
when the two samples have the same zygosity state at bit `b`: both heterozygous, both
homozygous dominant or both homozygous recessive. -/
theorem similarity_set_spec (z1 z2 : zygosity) :
    get_similarity_set (fill_zygosity z1) (fill_zygosity z2)
        = ((fill_zygosity z1).cx &&& (fill_zygosity z2).cx)
          ||| ((fill_zygosity z1).ca &&& (fill_zygosity z2).ca)
          ||| ((fill_zygosity z1).cn &&& (fill_zygosity z2).cn)
    ∧ ∀ b, b < 8 →
        (((get_similarity_set (fill_zygosity z1) (fill_zygosity z2)).testBit b = true
            ↔ byte_state z1.c1 z1.c2 b = byte_state z2.c1 z2.c2 b)
        ∧ ((get_similarity_set (fill_zygosity z1) (fill_zygosity z2)).testBit b = true
            ↔ ((byte_state z1.c1 z1.c2 b = ZygState.heterozygous
                  ∧ byte_state z2.c1 z2.c2 b = ZygState.heterozygous)
                ∨ (byte_state z1.c1 z1.c2 b = ZygState.homozygous_dominant
                  ∧ byte_state z2.c1 z2.c2 b = ZygState.homozygous_dominant)
                ∨ (byte_state z1.c1 z1.c2 b = ZygState.homozygous_recessive
                  ∧ byte_state z2.c1 z2.c2 b = ZygState.homozygous_recessive)))) := by
  refine ⟨?_, ?_⟩
  · apply Nat.eq_of_testBit_eq
    intro i
    simp only [get_similarity_set, fill_zygosity, Nat.testBit_and, Nat.testBit_xor,
      Nat.testBit_or, mod256_testBit, char_not_testBit]
    cases decide (i < 8) <;> simp
  · intro b hb
    have hsim := similarity_testBit z1 z2 b hb
    refine ⟨by rw [hsim]; simp, ?_⟩
    rw [hsim]
    cases h1 : byte_state z1.c1 z1.c2 b <;> cases h2 : byte_state z2.c1 z2.c2 b <;> simp

/-- C10 on the bytes of the hand-computed scenario, at bit 0. -/
theorem similarity_set_spec_witness :
    (0 < 8)
      ∧ ((get_similarity_set (fill_zygosity ⟨1, 0, 0, 0, 0⟩)
            (fill_zygosity ⟨0, 0, 0, 0, 0⟩)).testBit 0 = true
          ↔ byte_state 1 0 0 = byte_state 0 0 0) :=
  ⟨by decide, ((similarity_set_spec ⟨1, 0, 0, 0, 0⟩ ⟨0, 0, 0, 0, 0⟩).2 0 (by decide)).1⟩

/-! ## The mismatch counter -/

theorem zero_bits_add_popcount8 (b : Nat) : zero_bits b + popcount8 b = 8 := by
  unfold zero_bits popcount8
  have h := List.length_eq_countP_add_countP (fun t => b.testBit t) (List.range 8)
  simp only [List.length_range] at h
  have e : (List.range 8).countP (fun t => !(b.testBit t))
      = (List.range 8).countP (fun a => decide ¬ (b.testBit a = true)) := by
    apply List.countP_congr
    intro t _
    simp
  omega

/-- C11: for each of the 256 byte values `b`, read as a signed `char` (sign-extended to a
negative `int` from 128 on) or as an unsigned one, `get_zeros(b)` is `8 - popcount(b)`, the
number of zero bits among the 8 bits of `b`, and lies in `[0, 8]`. -/
theorem get_zeros_popcount (signedChar : Bool) (b : Nat) (hb : b < 256) :
    get_zeros (char_to_int signedChar b) = 8 - (popcount8 b : Int)
    ∧ get_zeros (char_to_int signedChar b) = (zero_bits b : Int)
    ∧ 0 ≤ get_zeros (char_to_int signedChar b)
    ∧ get_zeros (char_to_int signedChar b) ≤ 8
    ∧ (char_to_int true b = if 128 ≤ b then (b : Int) - 256 else (b : Int))
    ∧ char_to_int false b = (b : Int) := by
  have h1 := get_zeros_eq signedChar b
  have h2 := zero_bits_add_popcount8 b
  have h3 : b % 256 = b := Nat.mod_eq_of_lt hb
  refine ⟨by omega, h1, by omega, by omega, ?_, ?_⟩
  · unfold char_to_int
    rw [h3]
    by_cases h : 128 ≤ b <;> simp [h]
  · unfold char_to_int
    rw [h3]
    simp

/-- C11 on the byte `0b10000001` read as a signed `char`. -/
theorem get_zeros_popcount_witness :
    (0b10000001 : Nat) < 256
      ∧ get_zeros (char_to_int true 0b10000001) = 8 - (popcount8 0b10000001 : Int)
      ∧ char_to_int true 0b10000001 = -127 :=
  ⟨by decide, (get_zeros_popcount true 0b10000001 (by decide)).1, by decide⟩

/-! ## One step of the masker -/

/-- A masking loop never moves the pointer back, and never beyond the length of the list. -/
theorem mask_while_index (missing_match : Bool) (R_nap : RVec Int) (nap_length k : Nat) :
    ∀ (fuel : Nat) (s : Scan),
      s.next_missing_index
          ≤ (mask_while missing_match R_nap nap_length k fuel s).next_missing_index
      ∧ (s.next_missing_index ≤ nap_length →
          (mask_while missing_match R_nap nap_length k fuel s).next_missing_index
            ≤ nap_length) := by
  intro fuel
  induction fuel with
  | zero => intro s; exact ⟨le_refl _, fun h => h⟩
  | succ fuel ih =>
    intro s
    simp only [mask_while]
    cases hg : mask_guard nap_length k s
    · simp only [Bool.false_eq_true, if_false]
      exact ⟨le_refl _, fun h => h⟩
    · simp only [if_true]
      have hlt : s.next_missing_index < nap_length := by
        simp only [mask_guard, Bool.and_eq_true, decide_eq_true_eq] at hg
        exact hg.1.1
      have h := ih (mask_body missing_match R_nap s)
      have hb : (mask_body missing_match R_nap s).next_missing_index
          = s.next_missing_index + 1 := rfl
      rw [hb] at h
      exact ⟨by omega, fun _ => h.2 (by omega)⟩

theorem scan_at_drop (nap : List Int) (idx : Nat) (site : Int) (h : scan_at nap idx site) :
    nap.drop idx = nap.filter (fun v => decide (site < v)) := by
  have e := List.take_append_drop idx nap
  have h1 : (nap.take idx).filter (fun v => decide (site < v)) = [] := by
    apply List.filter_eq_nil_iff.mpr
    intro v hv
    have := h.2.1 v hv
    simp only [decide_eq_true_eq]
    omega
  have h2 : (nap.drop idx).filter (fun v => decide (site < v)) = nap.drop idx := by
    apply List.filter_eq_self.mpr
    intro v hv
    have := h.2.2 v hv
    simp only [decide_eq_true_eq]
    omega
  calc nap.drop idx
      = (nap.take idx).filter (fun v => decide (site < v))
          ++ (nap.drop idx).filter (fun v => decide (site < v)) := by rw [h1, h2]; rfl
    _ = (nap.take idx ++ nap.drop idx).filter (fun v => decide (site < v)) := by
        rw [List.filter_append]
    _ = nap.filter (fun v => decide (site < v)) := by rw [e]

theorem drop_scan_at (nap : List Int) (idx : Nat) (site : Int)
    (hs : List.Sorted (· < ·) nap) (hidx : idx ≤ nap.length)
    (h : nap.drop idx = nap.filter (fun v => decide (site < v))) :
    scan_at nap idx site := by
  refine ⟨hidx, ?_, ?_⟩
  · intro v hv
    by_contra hc
    have hmem : v ∈ nap.filter (fun v => decide (site < v)) := by
      apply List.mem_filter.mpr
      refine ⟨List.mem_of_mem_take hv, ?_⟩
      simp only [decide_eq_true_eq]
      omega
    rw [← h] at hmem
    exact List.disjoint_take_drop hs.nodup (le_refl idx) hv hmem
  · intro v hv
    rw [h] at hv
    have := (List.mem_filter.mp hv).2
    simp only [decide_eq_true_eq] at this
    omega

theorem entry_at_iff (nap : List Int) (k u : Nat) (hu : u < 8) :
    entry_at nap k u ↔ (8 * (k : Int) + (u : Int) + 1) ∈ nap := by
  constructor
  · rintro ⟨v, hv, h1, h2, h3⟩
    have e : v = 8 * (k : Int) + (u : Int) + 1 := by omega
    rw [← e]
    exact hv
  · intro h
    exact ⟨_, h, by omega, by omega, by omega⟩

theorem window_count (nap : List Int) (k : Nat) :
    nap.countP (fun v => decide (8 * (k : Int) < v))
      = entries_in_window nap k
        + nap.countP (fun v => decide (8 * (((k + 1 : Nat) : Int)) < v)) := by
  unfold entries_in_window
  have hs := countP_split nap
    (fun v => decide ((k : Int) * 8 ≤ v - 1) && decide (v - 1 < ((k : Int) + 1) * 8))
    (fun v => decide (8 * (((k + 1 : Nat) : Int)) < v))
  have h1 : nap.countP (fun v => decide (8 * (k : Int) < v))
      = nap.countP (fun g =>
          (decide ((k : Int) * 8 ≤ g - 1) && decide (g - 1 < ((k : Int) + 1) * 8))
            || decide (8 * (((k + 1 : Nat) : Int)) < g)) := by
    apply List.countP_congr
    intro v _
    simp only [decide_eq_true_eq, Bool.or_eq_true, Bool.and_eq_true]
    push_cast
    omega
  have h2 : nap.countP (fun g =>
          !(decide ((k : Int) * 8 ≤ g - 1) && decide (g - 1 < ((k : Int) + 1) * 8))
            && decide (8 * (((k + 1 : Nat) : Int)) < g))
      = nap.countP (fun v => decide (8 * (((k + 1 : Nat) : Int)) < v)) := by
    apply List.countP_congr
    intro v _
    simp only [decide_eq_true_eq, Bool.and_eq_true, Bool.not_eq_true', Bool.and_eq_false_iff,
      decide_eq_false_iff_not]
    push_cast
    omega
  rw [h1, hs, h2]

/-- A masking loop of window `k` on a strictly increasing list, entered with the pointer at
the first entry of window `k` or later. -/
theorem mask_loop_step (missing_match : Bool) (R_nap : RVec Int) (k b idx : Nat)
    (hs : List.Sorted (· < ·) R_nap.elts)
    (hp : scan_at R_nap.elts idx ((k : Int) * 8)) :
    (∀ u, u < 8 →
        (mask_loop missing_match R_nap (XLENGTH R_nap) k
            ⟨b, idx, R_nap.read idx - 1⟩).tmp_sim_set.testBit u
          = if missing_match then
              (b.testBit u || decide ((8 * (k : Int) + (u : Int) + 1) ∈ R_nap.elts))
            else (b.testBit u && !decide ((8 * (k : Int) + (u : Int) + 1) ∈ R_nap.elts)))
    ∧ scan_at R_nap.elts
        (mask_loop missing_match R_nap (XLENGTH R_nap) k
          ⟨b, idx, R_nap.read idx - 1⟩).next_missing_index ((((k : Int) + 1)) * 8)
    ∧ (mask_loop missing_match R_nap (XLENGTH R_nap) k
          ⟨b, idx, R_nap.read idx - 1⟩).next_missing_index
        = idx + entries_in_window R_nap.elts k
    ∧ (mask_loop missing_match R_nap (XLENGTH R_nap) k
          ⟨b, idx, R_nap.read idx - 1⟩).next_missing
        = R_nap.read (mask_loop missing_match R_nap (XLENGTH R_nap) k
            ⟨b, idx, R_nap.read idx - 1⟩).next_missing_index - 1 := by
  have hd : R_nap.elts.drop idx = R_nap.elts.filter (fun v => decide (8 * (k : Int) < v)) := by
    have := scan_at_drop R_nap.elts idx ((k : Int) * 8 ) hp
    rw [this]
    apply List.filter_congr
    intro v _
    have e : ((k : Int) * 8 < v) ↔ (8 * (k : Int) < v) := by omega
    simp only [e]
  obtain ⟨hnext, hdrop, hbits⟩ :=
    mask_loop_valid missing_match R_nap k ⟨b, idx, R_nap.read idx - 1⟩ hs rfl hd
  have hidx : idx ≤ (mask_loop missing_match R_nap (XLENGTH R_nap) k
        ⟨b, idx, R_nap.read idx - 1⟩).next_missing_index
      ∧ (idx ≤ R_nap.elts.length →
        (mask_loop missing_match R_nap (XLENGTH R_nap) k
          ⟨b, idx, R_nap.read idx - 1⟩).next_missing_index ≤ R_nap.elts.length) :=
    mask_while_index missing_match R_nap (XLENGTH R_nap) k
      (XLENGTH R_nap - idx) ⟨b, idx, R_nap.read idx - 1⟩
  have hle := hidx.2 hp.1
  have hge := hidx.1
  refine ⟨hbits, ?_, ?_, hnext⟩
  · obtain ⟨a1, a2, a3⟩ :=
      drop_scan_at R_nap.elts _ (8 * (((k + 1 : Nat) : Int))) hs hle hdrop
    refine ⟨a1, ?_, ?_⟩
    · intro v hv
      have := a2 v hv
      push_cast at this
      omega
    · intro v hv
      have := a3 v hv
      push_cast at this
      omega
  · have l1 := congrArg List.length hd
    have l2 := congrArg List.length hdrop
    rw [List.length_drop, ← List.countP_eq_length_filter] at l1 l2
    have hc := window_count R_nap.elts k
    have hp1 := hp.1
    omega

/-- C12: the masker step of window `k`.  For every similarity byte `s`, policy, and two
strictly increasing missing lists whose scan pointers stand at their first entry with 0-based
value at least `8k`: after both `while` loops the byte has, at the bit offset `v mod 8` of
every 0-based entry `v` in `[8k, 8k+8)` of either list, the bit 1 under policy true and 0
under policy false; every other bit is the bit of `s`; and each pointer has advanced past
exactly its entries in `[8k, 8k+8)`, the second list being processed whatever the first
did. -/
theorem masker_step (missing_match : Bool) (R_nap1 R_nap2 : RVec Int) (k s idx_i idx_j : Nat)
    (hs1 : List.Sorted (· < ·) R_nap1.elts) (hs2 : List.Sorted (· < ·) R_nap2.elts)
    (hp1 : scan_at R_nap1.elts idx_i ((k : Int) * 8))
    (hp2 : scan_at R_nap2.elts idx_j ((k : Int) * 8))
    (si sj : Scan)
    (hsi : si = mask_loop missing_match R_nap1 (XLENGTH R_nap1) k
      ⟨s, idx_i, R_nap1.read idx_i - 1⟩)
    (hsj : sj = mask_loop missing_match R_nap2 (XLENGTH R_nap2) k
      ⟨si.tmp_sim_set, idx_j, R_nap2.read idx_j - 1⟩) :
    (∀ u, u < 8 → (entry_at R_nap1.elts k u ∨ entry_at R_nap2.elts k u) →
        sj.tmp_sim_set.testBit u = missing_match)
    ∧ (∀ u, u < 8 → ¬ (entry_at R_nap1.elts k u ∨ entry_at R_nap2.elts k u) →
        sj.tmp_sim_set.testBit u = s.testBit u)
    ∧ scan_at R_nap1.elts si.next_missing_index (((k : Int) + 1) * 8)
    ∧ si.next_missing_index = idx_i + entries_in_window R_nap1.elts k
    ∧ si.next_missing = R_nap1.read si.next_missing_index - 1
    ∧ scan_at R_nap2.elts sj.next_missing_index (((k : Int) + 1) * 8)
    ∧ sj.next_missing_index = idx_j + entries_in_window R_nap2.elts k
    ∧ sj.next_missing = R_nap2.read sj.next_missing_index - 1 := by
  obtain ⟨b1, p1, c1, n1⟩ := mask_loop_step missing_match R_nap1 k s idx_i hs1 hp1
  obtain ⟨b2, p2, c2, n2⟩ :=
    mask_loop_step missing_match R_nap2 k si.tmp_sim_set idx_j hs2 hp2
  rw [← hsi] at b1 p1 c1 n1
  rw [← hsj] at b2 p2 c2 n2
  refine ⟨?_, ?_, p1, c1, n1, p2, c2, n2⟩
  · intro u hu hor
    rw [b2 u hu, b1 u hu]
    rw [entry_at_iff _ _ _ hu, entry_at_iff _ _ _ hu] at hor
    cases missing_match <;> rcases hor with h | h <;> simp [h]
  · intro u hu hnor
    rw [b2 u hu, b1 u hu]
    rw [entry_at_iff _ _ _ hu, entry_at_iff _ _ _ hu] at hnor
    have h1 : ¬ ((8 * (k : Int) + (u : Int) + 1) ∈ R_nap1.elts) := fun h => hnor (Or.inl h)
    have h2 : ¬ ((8 * (k : Int) + (u : Int) + 1) ∈ R_nap2.elts) := fun h => hnor (Or.inr h)
    cases missing_match <;> simp [h1, h2]

/-- C12 on window 1 of the lists `[2, 9, 16]` and `[1, 2, 10]`, with the byte `0b10101010`
under the mismatch policy: the pointers move from 1 to 3 and from 2 to 3. -/
theorem masker_step_witness :
    (List.Sorted (· < ·) ([2, 9, 16] : List Int) ∧ List.Sorted (· < ·) ([1, 2, 10] : List Int)
      ∧ scan_at [2, 9, 16] 1 ((1 : Nat) * 8) ∧ scan_at [1, 2, 10] 2 ((1 : Nat) * 8))
    ∧ (mask_loop false ⟨[2, 9, 16], fun _ => 0⟩ 3 1
          ⟨0b10101010, 1, (⟨[2, 9, 16], fun _ => 0⟩ : RVec Int).read 1 - 1⟩).next_missing_index
        = 1 + entries_in_window [2, 9, 16] 1
    ∧ (mask_loop false ⟨[1, 2, 10], fun _ => 0⟩ 3 1
          ⟨(mask_loop false ⟨[2, 9, 16], fun _ => 0⟩ 3 1
              ⟨0b10101010, 1,
                (⟨[2, 9, 16], fun _ => 0⟩ : RVec Int).read 1 - 1⟩).tmp_sim_set, 2,
            (⟨[1, 2, 10], fun _ => 0⟩ : RVec Int).read 2 - 1⟩).next_missing_index
        = 2 + entries_in_window [1, 2, 10] 1 :=
  ⟨by decide,
    (masker_step false ⟨[2, 9, 16], fun _ => 0⟩ ⟨[1, 2, 10], fun _ => 0⟩ 1 0b10101010 1 2
      (by decide) (by decide) (by decide) (by decide) _ _ rfl rfl).2.2.2.1,
    (masker_step false ⟨[2, 9, 16], fun _ => 0⟩ ⟨[1, 2, 10], fun _ => 0⟩ 1 0b10101010 1 2
      (by decide) (by decide) (by decide) (by decide) _ _ rfl rfl).2.2.2.2.2.2.1⟩

/-! ## Reads past the end of a missing-index list -/

/-- The window body runs its two masking loops from `window_scan_i` and `window_scan_j`. -/
theorem window_body_scans (signedChar missing_match : Bool) (gi gj : Genotype)
    (st : PairState) (k : Nat) :
    window_body signedChar missing_match gi.snp1 gi.snp2 gi.NA_posi (XLENGTH gi.NA_posi)
        gj.snp1 gj.snp2 gj.NA_posi (XLENGTH gj.NA_posi) st k
      = { cur_distance := st.cur_distance + get_zeros (char_to_int signedChar
            (mask_loop missing_match gj.NA_posi (XLENGTH gj.NA_posi) k
              (window_scan_j missing_match gi gj st k)).tmp_sim_set)
          next_missing_index_i := (mask_loop missing_match gi.NA_posi (XLENGTH gi.NA_posi) k
            (window_scan_i gi gj st k)).next_missing_index
          next_missing_i := (mask_loop missing_match gi.NA_posi (XLENGTH gi.NA_posi) k
            (window_scan_i gi gj st k)).next_missing
          next_missing_index_j := (mask_loop missing_match gj.NA_posi (XLENGTH gj.NA_posi) k
            (window_scan_j missing_match gi gj st k)).next_missing_index
          next_missing_j := (mask_loop missing_match gj.NA_posi (XLENGTH gj.NA_posi) k
            (window_scan_j missing_match gi gj st k)).next_missing } := rfl

/-- C13 fails on the code.  On the valid two-sample input `scenario_missing` (one window,
sample 0 with missing list `[1]`, sample 1 with the empty list), the unit of outer sample 1
and inner sample 0 reads the empty list of sample 1 at index 0, and reads the list of
sample 0, of length 1, at index 1 right after it has consumed its only entry. -/
theorem missing_list_read_past_end :
    uniform_length (scenario_missing (fun _ => 0) (fun _ => 0)) 1
    ∧ (∀ G ∈ scenario_missing (fun _ => 0) (fun _ => 0), valid_missing 1 G.NA_posi.elts)
    ∧ XLENGTH (VECTOR_ELT (scenario_missing (fun _ => 0) (fun _ => 0)) 1).NA_posi = 0
    ∧ pair_reads_i true true (VECTOR_ELT (scenario_missing (fun _ => 0) (fun _ => 0)) 1)
        (VECTOR_ELT (scenario_missing (fun _ => 0) (fun _ => 0)) 0) 1 = [0]
    ∧ XLENGTH (VECTOR_ELT (scenario_missing (fun _ => 0) (fun _ => 0)) 0).NA_posi = 1
    ∧ pair_reads_j true true (VECTOR_ELT (scenario_missing (fun _ => 0) (fun _ => 0)) 1)
        (VECTOR_ELT (scenario_missing (fun _ => 0) (fun _ => 0)) 0) 1 = [0, 1] := by
  decide

/-! ## The order of the pair units -/

theorem run_unit_apply (signedChar missing_match : Bool) (R_gen : List Genotype)
    (m : Nat → Nat → Int) (u : Nat × Nat) (a b : Nat) :
    run_unit signedChar missing_match R_gen m u a b
      = if a = u.2 ∧ b = u.1 then
          pair_distance signedChar missing_match (VECTOR_ELT R_gen u.1) (VECTOR_ELT R_gen u.2)
        else if a = u.1 ∧ b = u.2 then
          pair_distance signedChar missing_match (VECTOR_ELT R_gen u.1) (VECTOR_ELT R_gen u.2)
        else m a b := rfl

/-- The matrix after a list of units `(i, j)` with `j < i`, in any order and with any
repetition: a cell holds the distance of its pair when the unit of the pair was run. -/
theorem run_units_apply (signedChar missing_match : Bool) (R_gen : List Genotype) :
    ∀ (order : List (Nat × Nat)), (∀ u ∈ order, u.2 < u.1) →
      ∀ (m : Nat → Nat → Int) (a b : Nat),
        run_units signedChar missing_match R_gen order m a b
          = if (a, b) ∈ order then
              pair_distance signedChar missing_match (VECTOR_ELT R_gen a) (VECTOR_ELT R_gen b)
            else if (b, a) ∈ order then
              pair_distance signedChar missing_match (VECTOR_ELT R_gen b) (VECTOR_ELT R_gen a)
            else m a b := by
  intro order
  induction order with
  | nil => intro _ m a b; simp [run_units]
  | cons u rest ih =>
    intro h m a b
    have hrest : ∀ v ∈ rest, v.2 < v.1 := fun v hv => h v (List.mem_cons_of_mem _ hv)
    have hu : u.2 < u.1 := h u (List.mem_cons_self _ _)
    have hstep : run_units signedChar missing_match R_gen (u :: rest) m
        = run_units signedChar missing_match R_gen rest
            (run_unit signedChar missing_match R_gen m u) := rfl
    rw [hstep, ih hrest, run_unit_apply]
    by_cases h1 : (a, b) ∈ rest
    · simp [h1]
    · by_cases h2 : (b, a) ∈ rest
      · have hne : ¬ ((a, b) = u) := by
          intro e
          have := hrest _ h2
          rw [← e] at hu
          simp only at this hu
          omega
        simp [h1, h2, hne]
      · by_cases h3 : (a, b) = u
        · subst h3
          have hab : ¬ (a = b) := by
            simp only at hu
            omega
          simp [h1, h2, hab]
        · by_cases h4 : (b, a) = u
          · subst h4
            have hab : ¬ (a = b) := by
              simp only at hu
              omega
            simp [h1, h2, hab]
          · have e1 : ¬ (a = u.2 ∧ b = u.1) := by
              rintro ⟨x, y⟩
              exact h4 (by rw [x, y])
            have e2 : ¬ (a = u.1 ∧ b = u.2) := by
              rintro ⟨x, y⟩
              exact h3 (by rw [x, y])
            simp [h1, h2, h3, h4, e1, e2]

theorem mem_all_units (num_gens a b : Nat) :
    (a, b) ∈ all_units num_gens ↔ b < a ∧ a < num_gens := by
  simp only [all_units, List.mem_flatMap, List.mem_map, List.mem_range, Prod.mk.injEq]
  constructor
  · rintro ⟨i, hi, j, hj, rfl, rfl⟩
    exact ⟨hj, hi⟩
  · rintro ⟨h1, h2⟩
    exact ⟨a, h2, b, h1, rfl, rfl⟩

/-- C15: for a fixed population and policy, executing the pair units `(i, j)`, `j < i`, in
any permutation of the sequential order gives the matrix that `bitwise_distance` returns, and
that matrix is the same for every value of `requested_threads`; a unit writes only the cells
`d[i][j]` and `d[j][i]` of its own pair. -/
theorem order_independent (signedChar : Bool) (genlight : List Genotype) (missing : Bool)
    (order : List (Nat × Nat)) (hperm : order.Perm (all_units genlight.length))
    (requested_threads other_threads : Int) :
    bitwise_distance_in_order signedChar genlight missing order
        = bitwise_distance signedChar genlight missing requested_threads
    ∧ bitwise_distance signedChar genlight missing requested_threads
        = bitwise_distance signedChar genlight missing other_threads
    ∧ ∀ (m : Nat → Nat → Int) (u : Nat × Nat) (a b : Nat),
        ¬ ((a = u.1 ∧ b = u.2) ∨ (a = u.2 ∧ b = u.1)) →
        run_unit signedChar missing genlight m u a b = m a b := by
  refine ⟨?_, rfl, ?_⟩
  · have hlt : ∀ u ∈ order, u.2 < u.1 := by
      intro u hu
      have := (mem_all_units genlight.length u.1 u.2).mp (hperm.mem_iff.mp hu)
      exact this.1
    simp only [bitwise_distance_in_order, bitwise_distance]
    apply List.map_congr_left
    intro t _
    rw [run_units_apply signedChar missing genlight order hlt, distance_matrix_apply]
    have e1 : ∀ a b : Nat, ((a, b) ∈ order) ↔ (b < a ∧ a < genlight.length) := by
      intro a b
      rw [hperm.mem_iff]
      exact mem_all_units genlight.length a b
    simp only [e1]
  · intro m u a b hab
    rw [run_unit_apply]
    have e1 : ¬ (a = u.2 ∧ b = u.1) := fun h => hab (Or.inr h)
    have e2 : ¬ (a = u.1 ∧ b = u.2) := fun h => hab (Or.inl h)
    simp [e1, e2]

/-- C15 on `trio`, with the three units run in the reverse of the sequential order. -/
theorem order_independent_witness :
    [(2, 1), (2, 0), (1, 0)].Perm (all_units trio.length)
      ∧ bitwise_distance_in_order true trio false [(2, 1), (2, 0), (1, 0)]
          = bitwise_distance true trio false 4 :=
  ⟨by decide, (order_independent true trio false [(2, 1), (2, 0), (1, 0)] (by decide) 4 0).1⟩

/-! ## Two runs that scan different lists the same way -/

theorem mask_while_stop (missing_match : Bool) (R_nap : RVec Int) (nap_length k fuel : Nat)
    (s : Scan) (h : mask_guard nap_length k s = false) :
    mask_while missing_match R_nap nap_length k fuel s = s := by
  cases fuel with
  | zero => rfl
  | succ fuel => simp [mask_while, h]

theorem mask_guard_index (nap_length k : Nat) (s : Scan)
    (h : mask_guard nap_length k s = true) : s.next_missing_index < nap_length := by
  simp only [mask_guard, Bool.and_eq_true, decide_eq_true_eq] at h
  exact h.1.1

/-- Two masking loops of window `k` that start on the same byte and index with related
values end on the same byte and index with related values. -/
theorem mask_while_rel (missing_match : Bool) (R_nap R_nap2 : RVec Int)
    (Q : Nat → Nat → Int → Int → Prop) (hQ : scan_rel R_nap R_nap2 Q) (k : Nat) :
    ∀ (fuel fuel2 b idx : Nat) (n n2 : Int),
      Q k idx n n2 → XLENGTH R_nap - idx ≤ fuel → XLENGTH R_nap2 - idx ≤ fuel2 →
      (mask_while missing_match R_nap (XLENGTH R_nap) k fuel ⟨b, idx, n⟩).tmp_sim_set
          = (mask_while missing_match R_nap2 (XLENGTH R_nap2) k fuel2 ⟨b, idx, n2⟩).tmp_sim_set
      ∧ (mask_while missing_match R_nap (XLENGTH R_nap) k fuel ⟨b, idx, n⟩).next_missing_index
          = (mask_while missing_match R_nap2 (XLENGTH R_nap2) k fuel2
              ⟨b, idx, n2⟩).next_missing_index
      ∧ Q k (mask_while missing_match R_nap (XLENGTH R_nap) k fuel
              ⟨b, idx, n⟩).next_missing_index
          (mask_while missing_match R_nap (XLENGTH R_nap) k fuel ⟨b, idx, n⟩).next_missing
          (mask_while missing_match R_nap2 (XLENGTH R_nap2) k fuel2
              ⟨b, idx, n2⟩).next_missing := by
  intro fuel
  induction fuel with
  | zero =>
    intro fuel2 b idx n n2 hq hf _
    have hg : mask_guard (XLENGTH R_nap) k ⟨b, idx, n⟩ = false := by
      cases hc : mask_guard (XLENGTH R_nap) k ⟨b, idx, n⟩
      · rfl
      · have := mask_guard_index _ _ _ hc
        simp only at this
        omega
    have hg2 : mask_guard (XLENGTH R_nap2) k ⟨b, idx, n2⟩ = false := by
      rw [← hQ.guard k idx n n2 b hq]; exact hg
    rw [mask_while_stop _ _ _ _ _ _ hg, mask_while_stop _ _ _ _ _ _ hg2]
    exact ⟨rfl, rfl, hq⟩
  | succ fuel ih =>
    intro fuel2 b idx n n2 hq hf hf2
    cases hg : mask_guard (XLENGTH R_nap) k ⟨b, idx, n⟩
    · have hg2 : mask_guard (XLENGTH R_nap2) k ⟨b, idx, n2⟩ = false := by
        rw [← hQ.guard k idx n n2 b hq]; exact hg
      rw [mask_while_stop _ _ _ _ _ _ hg, mask_while_stop _ _ _ _ _ _ hg2]
      exact ⟨rfl, rfl, hq⟩
    · have hg2 : mask_guard (XLENGTH R_nap2) k ⟨b, idx, n2⟩ = true := by
        rw [← hQ.guard k idx n n2 b hq]; exact hg
      have hlt := mask_guard_index _ _ _ hg
      have hlt2 := mask_guard_index _ _ _ hg2
      simp only at hlt hlt2
      obtain ⟨hn, hq2⟩ := hQ.step k idx n n2 b hq hg
      obtain ⟨f2, rfl⟩ : ∃ f2, fuel2 = f2 + 1 := ⟨fuel2 - 1, by omega⟩
      subst hn
      simp only [mask_while, hg, hg2, if_true]
      exact ih f2 _ (idx + 1) _ _ hq2 (by omega) (by omega)

theorem mask_loop_rel (missing_match : Bool) (R_nap R_nap2 : RVec Int)
    (Q : Nat → Nat → Int → Int → Prop) (hQ : scan_rel R_nap R_nap2 Q) (k b idx : Nat)
    (n n2 : Int) (hq : Q k idx n n2) :
    (mask_loop missing_match R_nap (XLENGTH R_nap) k ⟨b, idx, n⟩).tmp_sim_set
        = (mask_loop missing_match R_nap2 (XLENGTH R_nap2) k ⟨b, idx, n2⟩).tmp_sim_set
    ∧ (mask_loop missing_match R_nap (XLENGTH R_nap) k ⟨b, idx, n⟩).next_missing_index
        = (mask_loop missing_match R_nap2 (XLENGTH R_nap2) k ⟨b, idx, n2⟩).next_missing_index
    ∧ Q k (mask_loop missing_match R_nap (XLENGTH R_nap) k ⟨b, idx, n⟩).next_missing_index
        (mask_loop missing_match R_nap (XLENGTH R_nap) k ⟨b, idx, n⟩).next_missing
        (mask_loop missing_match R_nap2 (XLENGTH R_nap2) k ⟨b, idx, n2⟩).next_missing :=
  mask_while_rel missing_match R_nap R_nap2 Q hQ k _ _ b idx n n2 hq (le_refl _) (le_refl _)

/-- Two pair units on the same chromosome bytes whose missing-index lists are scanned the
same way go through the same accumulator and scan indices. -/
theorem pair_windows_rel (signedChar missing_match : Bool) (gi gj gi2 gj2 : Genotype)
    (hi1 : gi.snp1 = gi2.snp1) (hi2 : gi.snp2 = gi2.snp2)
    (hj1 : gj.snp1 = gj2.snp1) (hj2 : gj.snp2 = gj2.snp2)
    (Qi Qj : Nat → Nat → Int → Int → Prop)
    (hQi : scan_rel gi.NA_posi gi2.NA_posi Qi) (hQj : scan_rel gj.NA_posi gj2.NA_posi Qj)
    (n : Nat) :
    (pair_windows signedChar missing_match gi gj n).cur_distance
        = (pair_windows signedChar missing_match gi2 gj2 n).cur_distance
    ∧ (pair_windows signedChar missing_match gi gj n).next_missing_index_i
        = (pair_windows signedChar missing_match gi2 gj2 n).next_missing_index_i
    ∧ Qi n (pair_windows signedChar missing_match gi gj n).next_missing_index_i
        (pair_windows signedChar missing_match gi gj n).next_missing_i
        (pair_windows signedChar missing_match gi2 gj2 n).next_missing_i
    ∧ (pair_windows signedChar missing_match gi gj n).next_missing_index_j
        = (pair_windows signedChar missing_match gi2 gj2 n).next_missing_index_j
    ∧ Qj n (pair_windows signedChar missing_match gi gj n).next_missing_index_j
        (pair_windows signedChar missing_match gi gj n).next_missing_j
        (pair_windows signedChar missing_match gi2 gj2 n).next_missing_j := by
  induction n with
  | zero => exact ⟨rfl, rfl, hQi.init, rfl, hQj.init⟩
  | succ n ih =>
    obtain ⟨c, ii, qi, ij, qj⟩ := ih
    rw [pair_windows_succ, pair_windows_succ, window_body_scans, window_body_scans]
    have hsi : window_scan_i gi2 gj2 (pair_windows signedChar missing_match gi2 gj2 n) n
        = ⟨(window_scan_i gi gj (pair_windows signedChar missing_match gi gj n) n).tmp_sim_set,
            (pair_windows signedChar missing_match gi gj n).next_missing_index_i,
            (pair_windows signedChar missing_match gi2 gj2 n).next_missing_i⟩ := by
      simp only [window_scan_i, ← hi1, ← hi2, ← hj1, ← hj2, ii]
    have hI := mask_loop_rel missing_match gi.NA_posi gi2.NA_posi Qi hQi n
      (window_scan_i gi gj (pair_windows signedChar missing_match gi gj n) n).tmp_sim_set
      (pair_windows signedChar missing_match gi gj n).next_missing_index_i
      (pair_windows signedChar missing_match gi gj n).next_missing_i
      (pair_windows signedChar missing_match gi2 gj2 n).next_missing_i qi
    rw [← hsi] at hI
    have hI1 : mask_loop missing_match gi.NA_posi (XLENGTH gi.NA_posi) n
          (window_scan_i gi gj (pair_windows signedChar missing_match gi gj n) n)
        = mask_loop missing_match gi.NA_posi (XLENGTH gi.NA_posi) n
          ⟨(window_scan_i gi gj (pair_windows signedChar missing_match gi gj n) n).tmp_sim_set,
            (pair_windows signedChar missing_match gi gj n).next_missing_index_i,
            (pair_windows signedChar missing_match gi gj n).next_missing_i⟩ := rfl
    rw [← hI1] at hI
    have hsj : window_scan_j missing_match gi2 gj2
          (pair_windows signedChar missing_match gi2 gj2 n) n
        = ⟨(window_scan_j missing_match gi gj
              (pair_windows signedChar missing_match gi gj n) n).tmp_sim_set,
            (pair_windows signedChar missing_match gi gj n).next_missing_index_j,
            (pair_windows signedChar missing_match gi2 gj2 n).next_missing_j⟩ := by
      simp only [window_scan_j, ← hI.1, ij]
    have hJ := mask_loop_rel missing_match gj.NA_posi gj2.NA_posi Qj hQj n
      (window_scan_j missing_match gi gj
        (pair_windows signedChar missing_match gi gj n) n).tmp_sim_set
      (pair_windows signedChar missing_match gi gj n).next_missing_index_j
      (pair_windows signedChar missing_match gi gj n).next_missing_j
      (pair_windows signedChar missing_match gi2 gj2 n).next_missing_j qj
    rw [← hsj] at hJ
    have hJ1 : mask_loop missing_match gj.NA_posi (XLENGTH gj.NA_posi) n
          (window_scan_j missing_match gi gj (pair_windows signedChar missing_match gi gj n) n)
        = mask_loop missing_match gj.NA_posi (XLENGTH gj.NA_posi) n
          ⟨(window_scan_j missing_match gi gj
              (pair_windows signedChar missing_match gi gj n) n).tmp_sim_set,
            (pair_windows signedChar missing_match gi gj n).next_missing_index_j,
            (pair_windows signedChar missing_match gi gj n).next_missing_j⟩ := rfl
    rw [← hJ1] at hJ
    refine ⟨?_, hI.2.1, hQi.next _ _ _ _ hI.2.2, hJ.2.1, hQj.next _ _ _ _ hJ.2.2⟩
    simp only [c, hJ.1]

/-- A scan is related to itself by equality of the values held. -/
theorem scan_rel_refl (R_nap : RVec Int) :
    scan_rel R_nap R_nap (fun _ _ n n2 => n = n2) where
  guard := by intro k idx n n2 b h; rw [h]
  step := by intro k idx n n2 b h _; exact ⟨h, rfl⟩
  next := by intro k idx n n2 h; exact h
  init := rfl

theorem read_in_range {α : Type} (R_nap R_nap2 : RVec α) (h : R_nap.elts = R_nap2.elts)
    (idx : Nat)
    (hidx : idx < R_nap.elts.length) : R_nap.read idx = R_nap2.read idx := by
  have hidx2 : idx < R_nap2.elts.length := by rw [← h]; exact hidx
  unfold RVec.read
  rw [List.getD_eq_getElem _ _ hidx, List.getD_eq_getElem _ _ hidx2]
  simp only [h]

/-- Two lists with the same elements are scanned the same way, whatever a read past their
end returns: the values held agree as long as the index is below the length. -/
theorem scan_rel_past (R_nap R_nap2 : RVec Int) (h : R_nap.elts = R_nap2.elts) :
    scan_rel R_nap R_nap2 (fun _ idx n n2 => idx < R_nap.elts.length → n = n2) where
  guard := by
    intro k idx n n2 b hq
    have hl : XLENGTH R_nap2 = XLENGTH R_nap := by simp [XLENGTH, h]
    rw [hl]
    by_cases hidx : idx < R_nap.elts.length
    · rw [hq hidx]
    · simp [mask_guard, XLENGTH, hidx]
  step := by
    intro k idx n n2 b hq hg
    have hidx := mask_guard_index _ _ _ hg
    refine ⟨hq hidx, fun h2 => ?_⟩
    rw [read_in_range R_nap R_nap2 h (idx + 1) h2]
  next := by intro k idx n n2 hq; exact hq
  init := by
    intro h2
    rw [read_in_range R_nap R_nap2 h 0 h2]

theorem pair_distance_rel (signedChar missing_match : Bool) (gi gj gi2 gj2 : Genotype)
    (hi1 : gi.snp1 = gi2.snp1) (hi2 : gi.snp2 = gi2.snp2)
    (hj1 : gj.snp1 = gj2.snp1) (hj2 : gj.snp2 = gj2.snp2)
    (Qi Qj : Nat → Nat → Int → Int → Prop)
    (hQi : scan_rel gi.NA_posi gi2.NA_posi Qi) (hQj : scan_rel gj.NA_posi gj2.NA_posi Qj) :
    pair_distance signedChar missing_match gi gj
      = pair_distance signedChar missing_match gi2 gj2 := by
  unfold pair_distance
  rw [← hi1]
  exact (pair_windows_rel signedChar missing_match gi gj gi2 gj2 hi1 hi2 hj1 hj2 Qi Qj hQi hQj
    (XLENGTH gi.snp1)).1

/-- Two populations of the same size whose pair units store the same distances give the same
result. -/
theorem bitwise_distance_congr (signedChar : Bool) (genlight genlight2 : List Genotype)
    (missing : Bool) (requested_threads : Int) (hlen : genlight.length = genlight2.length)
    (hpair : ∀ a b, b < a → a < genlight.length →
      pair_distance signedChar missing (VECTOR_ELT genlight a) (VECTOR_ELT genlight b)
        = pair_distance signedChar missing (VECTOR_ELT genlight2 a) (VECTOR_ELT genlight2 b)) :
    bitwise_distance signedChar genlight missing requested_threads
      = bitwise_distance signedChar genlight2 missing requested_threads := by
  simp only [bitwise_distance, ← hlen]
  apply List.map_congr_left
  intro t _
  rw [distance_matrix_apply, distance_matrix_apply, ← hlen]
  split_ifs with h1 h2
  · exact hpair _ _ h1.1 h1.2
  · exact hpair _ _ h2.1 h2.2
  · rfl

/-- C16: the values read from a missing-index list at an index at or beyond its length (the
first read of an empty list, the read made right after the last entry is consumed) never
influence the result.  Two populations that agree on all chromosome bytes and on the elements
of every missing-index list, and differ only in what reads past the end of those lists
return, give identical matrices, for every input, sorted or not. -/
theorem past_reads_irrelevant (signedChar : Bool) (genlight genlight2 : List Genotype)
    (missing : Bool) (requested_threads : Int)
    (hlen : genlight.length = genlight2.length)
    (hsame : ∀ s, (VECTOR_ELT genlight s).snp1 = (VECTOR_ELT genlight2 s).snp1
      ∧ (VECTOR_ELT genlight s).snp2 = (VECTOR_ELT genlight2 s).snp2
      ∧ (VECTOR_ELT genlight s).NA_posi.elts = (VECTOR_ELT genlight2 s).NA_posi.elts) :
    bitwise_distance signedChar genlight missing requested_threads
      = bitwise_distance signedChar genlight2 missing requested_threads := by
  apply bitwise_distance_congr signedChar genlight genlight2 missing requested_threads hlen
  intro a b _ _
  exact pair_distance_rel signedChar missing _ _ _ _ (hsame a).1 (hsame a).2.1 (hsame b).1
    (hsame b).2.1 _ _ (scan_rel_past _ _ (hsame a).2.2) (scan_rel_past _ _ (hsame b).2.2)

/-- C16 on `scenario_missing`: reads past the end returning 0 everywhere, against reads
returning 1 (a position of window 0) for sample 0 and 5 for sample 1. -/
theorem past_reads_irrelevant_witness :
    bitwise_distance true (scenario_missing (fun _ => 0) (fun _ => 0)) false 0
      = bitwise_distance true (scenario_missing (fun _ => 1) (fun _ => 5)) false 0 :=
  past_reads_irrelevant true (scenario_missing (fun _ => 0) (fun _ => 0))
    (scenario_missing (fun _ => 1) (fun _ => 5)) false 0 rfl
    (fun s => match s with
      | 0 => ⟨rfl, rfl, rfl⟩
      | 1 => ⟨rfl, rfl, rfl⟩
      | _ + 2 => ⟨rfl, rfl, rfl⟩)

/-! ## The pair unit with its two samples swapped -/

theorem zero_bits_congr (x y : Nat) (h : ∀ u, u < 8 → x.testBit u = y.testBit u) :
    zero_bits x = zero_bits y := by
  unfold zero_bits
  apply List.countP_congr
  intro u hu
  rw [h u (List.mem_range.mp hu)]

theorem get_similarity_set_comm (z1 z2 : zygosity) :
    get_similarity_set z1 z2 = get_similarity_set z2 z1 := by
  simp only [get_similarity_set, Nat.land_comm]

/-- A masking loop moves its pointer without looking at the byte, and forces in the byte a
set of bits `M` that does not depend on the byte. -/
theorem mask_while_forced (missing_match : Bool) (R_nap : RVec Int) (nap_length k : Nat) :
    ∀ (fuel idx : Nat) (n : Int), ∃ (M idx2 : Nat) (n2 : Int), ∀ b : Nat,
      (mask_while missing_match R_nap nap_length k fuel ⟨b, idx, n⟩).next_missing_index = idx2
      ∧ (mask_while missing_match R_nap nap_length k fuel ⟨b, idx, n⟩).next_missing = n2
      ∧ ∀ u, u < 8 →
          (mask_while missing_match R_nap nap_length k fuel ⟨b, idx, n⟩).tmp_sim_set.testBit u
            = if missing_match then (b.testBit u || M.testBit u)
              else (b.testBit u && !M.testBit u) := by
  intro fuel
  induction fuel with
  | zero =>
    intro idx n
    refine ⟨0, idx, n, fun b => ⟨rfl, rfl, fun u _ => ?_⟩⟩
    cases missing_match <;> simp [mask_while]
  | succ fuel ih =>
    intro idx n
    cases hg : mask_guard nap_length k ⟨0, idx, n⟩
    · refine ⟨0, idx, n, fun b => ?_⟩
      have hgb : mask_guard nap_length k ⟨b, idx, n⟩ = false := hg
      rw [mask_while_stop _ _ _ _ _ _ hgb]
      refine ⟨rfl, rfl, fun u _ => ?_⟩
      cases missing_match <;> simp
    · obtain ⟨M, idx2, n2, hM⟩ := ih (idx + 1) (R_nap.read (idx + 1) - 1)
      refine ⟨2 ^ (Int.tmod n 8).toNat ||| M, idx2, n2, fun b => ?_⟩
      have hgb : mask_guard nap_length k ⟨b, idx, n⟩ = true := hg
      have hstep : mask_while missing_match R_nap nap_length k (fuel + 1) ⟨b, idx, n⟩
          = mask_while missing_match R_nap nap_length k fuel
              ⟨force_bit missing_match b (Int.tmod n 8).toNat, idx + 1,
                R_nap.read (idx + 1) - 1⟩ := by
        simp only [mask_while, hgb, if_true]
        rfl
      rw [hstep]
      obtain ⟨h1, h2, h3⟩ := hM (force_bit missing_match b (Int.tmod n 8).toNat)
      refine ⟨h1, h2, fun u hu => ?_⟩
      rw [h3 u hu, force_bit_testBit _ _ _ _ hu, Nat.testBit_or, Nat.testBit_two_pow]
      cases missing_match <;> simp [Bool.or_assoc, Bool.and_assoc]

/-- After any number of windows, the unit of `ga` (outer) and `gb` (inner) and the unit with
the roles swapped hold the same accumulator, and each sample has the same scan pointer in
both. -/
theorem pair_windows_swap (signedChar missing_match : Bool) (ga gb : Genotype) (n : Nat) :
    (pair_windows signedChar missing_match ga gb n).cur_distance
        = (pair_windows signedChar missing_match gb ga n).cur_distance
    ∧ (pair_windows signedChar missing_match ga gb n).next_missing_index_i
        = (pair_windows signedChar missing_match gb ga n).next_missing_index_j
    ∧ (pair_windows signedChar missing_match ga gb n).next_missing_i
        = (pair_windows signedChar missing_match gb ga n).next_missing_j
    ∧ (pair_windows signedChar missing_match ga gb n).next_missing_index_j
        = (pair_windows signedChar missing_match gb ga n).next_missing_index_i
    ∧ (pair_windows signedChar missing_match ga gb n).next_missing_j
        = (pair_windows signedChar missing_match gb ga n).next_missing_i := by
  induction n with
  | zero => exact ⟨rfl, rfl, rfl, rfl, rfl⟩
  | succ n ih =>
    obtain ⟨c, ai, an, bi, bn⟩ := ih
    obtain ⟨Ma, ia, na, hA⟩ := mask_while_forced missing_match ga.NA_posi (XLENGTH ga.NA_posi) n
      (XLENGTH ga.NA_posi - (pair_windows signedChar missing_match ga gb n).next_missing_index_i)
      (pair_windows signedChar missing_match ga gb n).next_missing_index_i
      (pair_windows signedChar missing_match ga gb n).next_missing_i
    obtain ⟨Mb, ib, nb, hB⟩ := mask_while_forced missing_match gb.NA_posi (XLENGTH gb.NA_posi) n
      (XLENGTH gb.NA_posi - (pair_windows signedChar missing_match ga gb n).next_missing_index_j)
      (pair_windows signedChar missing_match ga gb n).next_missing_index_j
      (pair_windows signedChar missing_match ga gb n).next_missing_j
    rw [pair_windows_succ, pair_windows_succ, window_body_scans, window_body_scans]
    simp only [window_scan_j, window_scan_i, mask_loop, ← ai, ← an, ← bi, ← bn]
    obtain ⟨a1, a2, a3⟩ := hA (get_similarity_set
      (fill_zygosity
        { c1 := ga.snp1.read n % 256, c2 := ga.snp2.read n % 256, cx := 0, ca := 0, cn := 0 })
      (fill_zygosity
        { c1 := gb.snp1.read n % 256, c2 := gb.snp2.read n % 256, cx := 0, ca := 0, cn := 0 }))
    obtain ⟨b1, b2, b3⟩ := hB (get_similarity_set
      (fill_zygosity
        { c1 := gb.snp1.read n % 256, c2 := gb.snp2.read n % 256, cx := 0, ca := 0, cn := 0 })
      (fill_zygosity
        { c1 := ga.snp1.read n % 256, c2 := ga.snp2.read n % 256, cx := 0, ca := 0, cn := 0 }))
    obtain ⟨a1', a2', a3'⟩ := hA (mask_while missing_match gb.NA_posi (XLENGTH gb.NA_posi) n
      (XLENGTH gb.NA_posi - (pair_windows signedChar missing_match ga gb n).next_missing_index_j)
      ⟨get_similarity_set
        (fill_zygosity
          { c1 := gb.snp1.read n % 256, c2 := gb.snp2.read n % 256, cx := 0, ca := 0, cn := 0 })
        (fill_zygosity
          { c1 := ga.snp1.read n % 256, c2 := ga.snp2.read n % 256, cx := 0, ca := 0, cn := 0 }),
        (pair_windows signedChar missing_match ga gb n).next_missing_index_j,
        (pair_windows signedChar missing_match ga gb n).next_missing_j⟩).tmp_sim_set
    obtain ⟨b1', b2', b3'⟩ := hB (mask_while missing_match ga.NA_posi (XLENGTH ga.NA_posi) n
      (XLENGTH ga.NA_posi - (pair_windows signedChar missing_match ga gb n).next_missing_index_i)
      ⟨get_similarity_set
        (fill_zygosity
          { c1 := ga.snp1.read n % 256, c2 := ga.snp2.read n % 256, cx := 0, ca := 0, cn := 0 })
        (fill_zygosity
          { c1 := gb.snp1.read n % 256, c2 := gb.snp2.read n % 256, cx := 0, ca := 0, cn := 0 }),
        (pair_windows signedChar missing_match ga gb n).next_missing_index_i,
        (pair_windows signedChar missing_match ga gb n).next_missing_i⟩).tmp_sim_set
    refine ⟨?_, a1.trans a1'.symm, a2.trans a2'.symm, b1'.trans b1.symm, b2'.trans b2.symm⟩
    rw [get_zeros_eq, get_zeros_eq, c]
    congr 2
    apply zero_bits_congr
    intro u hu
    rw [b3' u hu, a3 u hu, a3' u hu, b3 u hu, get_similarity_set_comm]
    cases missing_match <;> simp only [if_true, if_false, Bool.false_eq_true]
    · cases (get_similarity_set
        (fill_zygosity
          { c1 := gb.snp1.read n % 256, c2 := gb.snp2.read n % 256, cx := 0, ca := 0, cn := 0 })
        (fill_zygosity
          { c1 := ga.snp1.read n % 256, c2 := ga.snp2.read n % 256, cx := 0, ca := 0,
            cn := 0 })).testBit u <;> cases Ma.testBit u <;> cases Mb.testBit u <;> rfl
    · cases (get_similarity_set
        (fill_zygosity
          { c1 := gb.snp1.read n % 256, c2 := gb.snp2.read n % 256, cx := 0, ca := 0, cn := 0 })
        (fill_zygosity
          { c1 := ga.snp1.read n % 256, c2 := ga.snp2.read n % 256, cx := 0, ca := 0,
            cn := 0 })).testBit u <;> cases Ma.testBit u <;> cases Mb.testBit u <;> rfl

/-- C17: the pair computation is symmetric in its two samples.  For every two samples of
equal `chr_length`, with any missing-index lists, and every policy, the distance accumulated
with `ga` as the outer sample and `gb` as the inner one equals the distance with the roles
swapped. -/
theorem pair_distance_symmetric (signedChar missing_match : Bool) (ga gb : Genotype)
    (hlen : XLENGTH ga.snp1 = XLENGTH gb.snp1) :
    pair_distance signedChar missing_match ga gb
      = pair_distance signedChar missing_match gb ga := by
  unfold pair_distance
  rw [← hlen]
  exact (pair_windows_swap signedChar missing_match ga gb (XLENGTH ga.snp1)).1

/-- C17 on samples 0 and 2 of `trio` under the mismatch policy. -/
theorem pair_distance_symmetric_witness :
    XLENGTH (VECTOR_ELT trio 0).snp1 = XLENGTH (VECTOR_ELT trio 2).snp1
      ∧ pair_distance true false (VECTOR_ELT trio 0) (VECTOR_ELT trio 2)
          = pair_distance true false (VECTOR_ELT trio 2) (VECTOR_ELT trio 0) :=
  ⟨by decide, pair_distance_symmetric true false (VECTOR_ELT trio 0) (VECTOR_ELT trio 2)
    (by decide)⟩

/-! ## Identical samples -/

theorem zyg_differ_same (G H : Genotype) (h1 : G.snp1.elts = H.snp1.elts)
    (h2 : G.snp2.elts = H.snp2.elts) (g : Nat) : zyg_differ G H g = false := by
  simp [zyg_differ, zygosity_at, h1, h2]

/-- C18: two distinct samples `i ≠ j` with identical chromosome bytes and identical valid
missing-index lists of `m` entries have `d[i][j] = 0` under the match policy and
`d[i][j] = m` under the mismatch policy, while the diagonal entry `d[i][i]` is 0 under both
policies. -/
theorem identical_samples_distance (signedChar : Bool) (genlight : List Genotype)
    (requested_threads : Int) (L : Nat)
    (hlen : uniform_length genlight L)
    (hval : ∀ G ∈ genlight, valid_missing L G.NA_posi.elts)
    (i j : Nat) (hi : i < genlight.length) (hj : j < genlight.length) (hij : i ≠ j)
    (h1 : (VECTOR_ELT genlight i).snp1.elts = (VECTOR_ELT genlight j).snp1.elts)
    (h2 : (VECTOR_ELT genlight i).snp2.elts = (VECTOR_ELT genlight j).snp2.elts)
    (h3 : (VECTOR_ELT genlight i).NA_posi.elts = (VECTOR_ELT genlight j).NA_posi.elts) :
    (bitwise_distance signedChar genlight true requested_threads)[
        i * genlight.length + j]? = some 0
    ∧ (bitwise_distance signedChar genlight false requested_threads)[
        i * genlight.length + j]?
        = some (((VECTOR_ELT genlight i).NA_posi.elts.length : Nat) : Int)
    ∧ (bitwise_distance signedChar genlight true requested_threads)[
        i * genlight.length + i]? = some 0
    ∧ (bitwise_distance signedChar genlight false requested_threads)[
        i * genlight.length + i]? = some 0 := by
  have hdiag : ∀ missing : Bool,
      (bitwise_distance signedChar genlight missing requested_threads)[
        i * genlight.length + i]? = some 0 := by
    intro missing
    rw [bitwise_distance_get _ _ _ _ i i hi hi, distance_matrix_apply]
    simp
  have hz := zyg_differ_same (VECTOR_ELT genlight i) (VECTOR_ELT genlight j) h1 h2
  refine ⟨?_, ?_, hdiag true, hdiag false⟩
  · rw [bitwise_distance_valid signedChar genlight true requested_threads L hlen hval i j hi hj
      hij]
    have h0 : (List.range (8 * L)).countP
        (site_mismatch true (VECTOR_ELT genlight i) (VECTOR_ELT genlight j)) = 0 := by
      apply List.countP_eq_zero.mpr
      intro g _
      simp [site_mismatch, hz]
    rw [h0]
    rfl
  · rw [bitwise_distance_valid signedChar genlight false requested_threads L hlen hval i j hi
      hj hij]
    have hvi := hval _ (VECTOR_ELT_mem genlight i hi)
    have hvj := hval _ (VECTOR_ELT_mem genlight j hj)
    have hc : (List.range (8 * L)).countP
        (site_mismatch false (VECTOR_ELT genlight i) (VECTOR_ELT genlight j))
        = (List.range (8 * L)).countP
          (fun g => is_missing (VECTOR_ELT genlight i) g
            || is_missing (VECTOR_ELT genlight j) g) := by
      apply List.countP_congr
      intro g _
      simp [site_mismatch, hz]
    rw [hc, missing_count_eq _ _ L hvi.2 hvj.2]
    unfold missing_sites
    rw [← h3, Finset.union_self, List.toFinset_card_of_nodup hvi.1.nodup]

/-- C18 on samples 0 and 2 of `twins`, which have the same bytes and the same two missing
sites. -/
theorem identical_samples_distance_witness :
    (uniform_length twins 1 ∧ (∀ G ∈ twins, valid_missing 1 G.NA_posi.elts))
      ∧ (bitwise_distance true twins true 0)[0 * twins.length + 2]? = some 0
      ∧ (bitwise_distance true twins false 0)[0 * twins.length + 2]?
          = some (((VECTOR_ELT twins 0).NA_posi.elts.length : Nat) : Int) :=
  ⟨by decide,
    (identical_samples_distance true twins 0 1 (by decide) (by decide) 0 2 (by decide)
      (by decide) (by decide) rfl rfl rfl).1,
    (identical_samples_distance true twins 0 1 (by decide) (by decide) 0 2 (by decide)
      (by decide) (by decide) rfl rfl rfl).2.1⟩

/-! ## An entry that lies before the window the scan has reached -/

theorem read_prefix (R_full R_trunc : RVec Int) (pre post : List Int) (x : Int)
    (hf : R_full.elts = pre ++ x :: post) (ht : R_trunc.elts = pre) (idx : Nat)
    (h : idx < pre.length) : R_full.read idx = R_trunc.read idx := by
  unfold RVec.read
  rw [hf, ht, List.getD_eq_getElem?_getD, List.getD_eq_getElem?_getD,
    List.getElem?_append_left h, List.getElem?_eq_getElem h]
  rfl

theorem read_blocked (R_full : RVec Int) (pre post : List Int) (x : Int)
    (hf : R_full.elts = pre ++ x :: post) : R_full.read pre.length = x := by
  unfold RVec.read
  rw [hf, List.getD_eq_getElem?_getD,
    List.getElem?_append_right (Nat.le_refl pre.length), Nat.sub_self]
  simp

theorem read_last (R_trunc : RVec Int) (pre : List Int) (v : Int) (ht : R_trunc.elts = pre)
    (hv : pre.getLast? = some v) (idx : Nat) (h : idx + 1 = pre.length) :
    R_trunc.read idx = v := by
  unfold RVec.read
  rw [ht, List.getD_eq_getElem?_getD]
  rw [List.getLast?_eq_getElem?] at hv
  have e : pre.length - 1 = idx := by omega
  rw [e] at hv
  rw [hv]
  rfl

/-- The scan of a list `pre ++ x :: post` whose entry `x` lies before the window the scan has
reached when it stands on `x`, and the scan of the list `pre`, take the same decisions: the
pointer never passes `x`. -/
theorem scan_rel_trunc (R_full R_trunc : RVec Int) (pre post : List Int) (x : Int)
    (hf : R_full.elts = pre ++ x :: post) (ht : R_trunc.elts = pre)
    (hblock : (pre = [] ∧ x ≤ 0)
      ∨ ∃ (v : Int) (w : Nat), pre.getLast? = some v ∧ (w : Int) * 8 ≤ v - 1
          ∧ v - 1 < ((w : Int) + 1) * 8 ∧ x - 1 < (w : Int) * 8) :
    scan_rel R_full R_trunc (fun k idx n n2 =>
      idx ≤ pre.length ∧ n = R_full.read idx - 1 ∧ n2 = R_trunc.read idx - 1
        ∧ (idx = pre.length → x - 1 < (k : Int) * 8)) where
  guard := by
    intro k idx n n2 b hq
    obtain ⟨hle, hn, hn2, hx⟩ := hq
    have lf : XLENGTH R_full = pre.length + (post.length + 1) := by simp [XLENGTH, hf]
    have lt : XLENGTH R_trunc = pre.length := by simp [XLENGTH, ht]
    rcases Nat.lt_or_ge idx pre.length with hlt | hge
    · have e : n = n2 := by rw [hn, hn2, read_prefix R_full R_trunc pre post x hf ht idx hlt]
      have a1 : idx < pre.length + (post.length + 1) := by omega
      simp [mask_guard, lf, lt, hlt, a1, e]
    · have hp : idx = pre.length := by omega
      have hxx := hx hp
      have e : n = x - 1 := by rw [hn, hp, read_blocked R_full pre post x hf]
      have a1 : ¬ ((k : Int) * 8 ≤ n) := by omega
      have a2 : ¬ (idx < pre.length) := by omega
      simp [mask_guard, lt, a1, a2]
  step := by
    intro k idx n n2 b hq hg
    obtain ⟨hle, hn, hn2, hx⟩ := hq
    simp only [mask_guard, Bool.and_eq_true, decide_eq_true_eq] at hg
    obtain ⟨⟨_, g2⟩, g3⟩ := hg
    have hlt : idx < pre.length := by
      rcases Nat.lt_or_ge idx pre.length with hlt | hge
      · exact hlt
      · exfalso
        have hp : idx = pre.length := by omega
        have hxx := hx hp
        have e : n = x - 1 := by rw [hn, hp, read_blocked R_full pre post x hf]
        omega
    have e : n = n2 := by rw [hn, hn2, read_prefix R_full R_trunc pre post x hf ht idx hlt]
    refine ⟨e, by omega, rfl, rfl, fun hp => ?_⟩
    rcases hblock with ⟨hnil, _⟩ | ⟨v, w, hv, w1, w2, w3⟩
    · rw [hnil] at hlt
      simp at hlt
    · have hr := read_last R_trunc pre v ht hv idx hp
      rw [hr] at hn2
      have hkw : (k : Int) = (w : Int) := by omega
      rw [hkw]
      exact w3
  next := by
    intro k idx n n2 hq
    obtain ⟨hle, hn, hn2, hx⟩ := hq
    refine ⟨hle, hn, hn2, fun hp => ?_⟩
    have := hx hp
    push_cast
    omega
  init := by
    refine ⟨Nat.zero_le _, rfl, rfl, fun hp => ?_⟩
    rcases hblock with ⟨_, hx⟩ | ⟨v, w, hv, _, _, _⟩
    · simp only [Nat.cast_zero, zero_mul]
      omega
    · have hnil : pre = [] := List.length_eq_zero.mp hp.symm
      rw [hnil] at hv
      simp at hv

/-- C19: a missing-list entry that lies before the window the scan has reached is never
consumed and blocks everything after it.  If the list of sample `s` is `pre ++ x :: post`
where either `pre` is empty and `x ≤ 0`, or the 0-based value of `x` is smaller than the
first site of the window `w` that contains the last entry of `pre`, then the scan pointer of
that sample never passes position `pre.length` in any pair unit, and the whole matrix equals
the one computed with the list of sample `s` truncated to `pre`. -/
theorem blocked_entry_truncates (signedChar missing : Bool) (requested_threads : Int)
    (genlight genlight2 : List Genotype) (s : Nat) (pre post : List Int) (x : Int)
    (hlen : genlight.length = genlight2.length)
    (hother : ∀ t, t ≠ s → VECTOR_ELT genlight t = VECTOR_ELT genlight2 t)
    (hs1 : (VECTOR_ELT genlight s).snp1 = (VECTOR_ELT genlight2 s).snp1)
    (hs2 : (VECTOR_ELT genlight s).snp2 = (VECTOR_ELT genlight2 s).snp2)
    (hfull : (VECTOR_ELT genlight s).NA_posi.elts = pre ++ x :: post)
    (htrunc : (VECTOR_ELT genlight2 s).NA_posi.elts = pre)
    (hblock : (pre = [] ∧ x ≤ 0)
      ∨ ∃ (v : Int) (w : Nat), pre.getLast? = some v ∧ (w : Int) * 8 ≤ v - 1
          ∧ v - 1 < ((w : Int) + 1) * 8 ∧ x - 1 < (w : Int) * 8) :
    bitwise_distance signedChar genlight missing requested_threads
        = bitwise_distance signedChar genlight2 missing requested_threads
    ∧ ∀ (H : Genotype) (n : Nat),
        (pair_windows signedChar missing (VECTOR_ELT genlight s) H n).next_missing_index_i
            ≤ pre.length
        ∧ (pair_windows signedChar missing H (VECTOR_ELT genlight s) n).next_missing_index_j
            ≤ pre.length := by
  have hT := scan_rel_trunc (VECTOR_ELT genlight s).NA_posi (VECTOR_ELT genlight2 s).NA_posi
    pre post x hfull htrunc hblock
  refine ⟨?_, ?_⟩
  · apply bitwise_distance_congr signedChar genlight genlight2 missing requested_threads hlen
    intro a b hba _
    by_cases ha : a = s
    · have hb : b ≠ s := by omega
      rw [← hother b hb, ha]
      exact pair_distance_rel signedChar missing _ _ _ _ hs1 hs2 rfl rfl _ _ hT
        (scan_rel_refl _)
    · by_cases hb : b = s
      · rw [← hother a ha, hb]
        exact pair_distance_rel signedChar missing _ _ _ _ rfl rfl hs1 hs2 _ _
          (scan_rel_refl _) hT
      · rw [← hother a ha, ← hother b hb]
  · intro H n
    exact ⟨(pair_windows_rel signedChar missing (VECTOR_ELT genlight s) H
        (VECTOR_ELT genlight2 s) H hs1 hs2 rfl rfl _ _ hT (scan_rel_refl _) n).2.2.1.1,
      (pair_windows_rel signedChar missing H (VECTOR_ELT genlight s) H
        (VECTOR_ELT genlight2 s) rfl rfl hs1 hs2 _ _ (scan_rel_refl _) hT n).2.2.2.2.1⟩

/-- C19 on `blocked_pair`: the entries 3 and 12 of sample 0 are never applied. -/
theorem blocked_entry_truncates_witness :
    ((([2, 9] : List Int) = [] ∧ (3 : Int) ≤ 0)
        ∨ ∃ (v : Int) (w : Nat), ([2, 9] : List Int).getLast? = some v ∧ (w : Int) * 8 ≤ v - 1
            ∧ v - 1 < ((w : Int) + 1) * 8 ∧ (3 : Int) - 1 < (w : Int) * 8)
      ∧ bitwise_distance true blocked_pair false 0
          = bitwise_distance true blocked_pair_truncated false 0 :=
  ⟨Or.inr ⟨9, 1, rfl, by decide, by decide, by decide⟩,
    (blocked_entry_truncates true false 0 blocked_pair blocked_pair_truncated 0 [2, 9] [12] 3
      rfl
      (fun t ht => match t, ht with
        | 0, h => absurd rfl h
        | 1, _ => rfl
        | _ + 2, _ => rfl)
      rfl rfl rfl rfl (Or.inr ⟨9, 1, rfl, by decide, by decide, by decide⟩)).1⟩

/-! ## The scan index -/

/-- A masking loop given its fuel `nap_length - next_missing_index` ends on a false guard:
the fuel never runs out before the loop condition fails. -/
theorem mask_while_exit (missing_match : Bool) (R_nap : RVec Int) (nap_length k : Nat) :
    ∀ (fuel : Nat) (s : Scan), nap_length - s.next_missing_index ≤ fuel →
      mask_guard nap_length k (mask_while missing_match R_nap nap_length k fuel s) = false := by
  intro fuel
  induction fuel with
  | zero =>
    intro s hf
    cases hg : mask_guard nap_length k s
    · exact hg
    · have := mask_guard_index _ _ _ hg
      omega
  | succ fuel ih =>
    intro s hf
    cases hg : mask_guard nap_length k s
    · rw [mask_while_stop _ _ _ _ _ _ hg]; exact hg
    · have hlt := mask_guard_index _ _ _ hg
      simp only [mask_while, hg, if_true]
      apply ih
      have hb : (mask_body missing_match R_nap s).next_missing_index
          = s.next_missing_index + 1 := rfl
      rw [hb]
      omega

/-- Every read of a masking loop is at an index at most the length of the list, and the loop
makes one read for each advance of the pointer. -/
theorem mask_while_reads_spec (missing_match : Bool) (R_nap : RVec Int) (nap_length k : Nat) :
    ∀ (fuel : Nat) (s : Scan),
      (∀ r ∈ mask_while_reads missing_match R_nap nap_length k fuel s, r ≤ nap_length)
      ∧ s.next_missing_index
          + (mask_while_reads missing_match R_nap nap_length k fuel s).length
        = (mask_while missing_match R_nap nap_length k fuel s).next_missing_index := by
  intro fuel
  induction fuel with
  | zero => intro s; simp [mask_while_reads, mask_while]
  | succ fuel ih =>
    intro s
    cases hg : mask_guard nap_length k s
    · simp [mask_while_reads, mask_while, hg]
    · have hlt := mask_guard_index _ _ _ hg
      obtain ⟨h1, h2⟩ := ih (mask_body missing_match R_nap s)
      have hb : (mask_body missing_match R_nap s).next_missing_index
          = s.next_missing_index + 1 := rfl
      rw [hb] at h2
      simp only [mask_while_reads, mask_while, hg, if_true, List.mem_cons, List.length_cons]
      refine ⟨?_, by omega⟩
      intro r hr
      rcases hr with h | h
      · omega
      · exact h1 r h

/-- The scan indices of a pair unit after `n` windows are within the lists, and the reads made
so far are at indices at most the length, one more than the advances of the pointer. -/
theorem pair_windows_index (signedChar missing_match : Bool) (gi gj : Genotype) (n : Nat) :
    (pair_windows signedChar missing_match gi gj n).next_missing_index_i
        ≤ XLENGTH gi.NA_posi
    ∧ (pair_windows signedChar missing_match gi gj n).next_missing_index_j
        ≤ XLENGTH gj.NA_posi
    ∧ (∀ r ∈ pair_reads_i signedChar missing_match gi gj n, r ≤ XLENGTH gi.NA_posi)
    ∧ (∀ r ∈ pair_reads_j signedChar missing_match gi gj n, r ≤ XLENGTH gj.NA_posi)
    ∧ (pair_reads_i signedChar missing_match gi gj n).length
        = (pair_windows signedChar missing_match gi gj n).next_missing_index_i + 1
    ∧ (pair_reads_j signedChar missing_match gi gj n).length
        = (pair_windows signedChar missing_match gi gj n).next_missing_index_j + 1 := by
  induction n with
  | zero =>
    simp [pair_windows, pair_init, pair_reads_i, pair_reads_j]
  | succ n ih =>
    obtain ⟨a1, a2, a3, a4, a5, a6⟩ := ih
    have hI := mask_while_index missing_match gi.NA_posi (XLENGTH gi.NA_posi) n
      (XLENGTH gi.NA_posi
        - (window_scan_i gi gj (pair_windows signedChar missing_match gi gj n)
            n).next_missing_index)
      (window_scan_i gi gj (pair_windows signedChar missing_match gi gj n) n)
    have hJ := mask_while_index missing_match gj.NA_posi (XLENGTH gj.NA_posi) n
      (XLENGTH gj.NA_posi
        - (window_scan_j missing_match gi gj (pair_windows signedChar missing_match gi gj n)
            n).next_missing_index)
      (window_scan_j missing_match gi gj (pair_windows signedChar missing_match gi gj n) n)
    have rI := mask_while_reads_spec missing_match gi.NA_posi (XLENGTH gi.NA_posi) n
      (XLENGTH gi.NA_posi
        - (window_scan_i gi gj (pair_windows signedChar missing_match gi gj n)
            n).next_missing_index)
      (window_scan_i gi gj (pair_windows signedChar missing_match gi gj n) n)
    have rJ := mask_while_reads_spec missing_match gj.NA_posi (XLENGTH gj.NA_posi) n
      (XLENGTH gj.NA_posi
        - (window_scan_j missing_match gi gj (pair_windows signedChar missing_match gi gj n)
            n).next_missing_index)
      (window_scan_j missing_match gi gj (pair_windows signedChar missing_match gi gj n) n)
    have ei : (window_scan_i gi gj (pair_windows signedChar missing_match gi gj n)
        n).next_missing_index
        = (pair_windows signedChar missing_match gi gj n).next_missing_index_i := rfl
    have ej : (window_scan_j missing_match gi gj (pair_windows signedChar missing_match gi gj n)
        n).next_missing_index
        = (pair_windows signedChar missing_match gi gj n).next_missing_index_j := rfl
    rw [ei] at hI rI
    rw [ej] at hJ rJ
    have ri : pair_reads_i signedChar missing_match gi gj (n + 1)
        = pair_reads_i signedChar missing_match gi gj n
          ++ mask_loop_reads missing_match gi.NA_posi (XLENGTH gi.NA_posi) n
              (window_scan_i gi gj (pair_windows signedChar missing_match gi gj n) n) := by
      simp [pair_reads_i, List.range_succ, List.flatMap_append]
    have rj : pair_reads_j signedChar missing_match gi gj (n + 1)
        = pair_reads_j signedChar missing_match gi gj n
          ++ mask_loop_reads missing_match gj.NA_posi (XLENGTH gj.NA_posi) n
              (window_scan_j missing_match gi gj
                (pair_windows signedChar missing_match gi gj n) n) := by
      simp [pair_reads_j, List.range_succ, List.flatMap_append]
    rw [ri, rj, pair_windows_succ, window_body_scans]
    simp only [mask_loop, mask_loop_reads, ei, ej, List.mem_append, List.length_append]
    refine ⟨hI.2 a1, hJ.2 a2, ?_, ?_, by omega, by omega⟩
    · intro r hr
      rcases hr with h | h
      · exact a3 r h
      · exact rI.1 r h
    · intro r hr
      rcases hr with h | h
      · exact a4 r h
      · exact rJ.1 r h

/-- C20: for every input, sorted or not, and every pair unit, each sample's scan index never
decreases from a window to the next and stays between 0 and the length of its list; every
masking loop ends on a false loop condition and leaves its index at or after where it found
it; the reads of a list number one more than the advances of its index, hence at most the
length plus one; and a read at or beyond the length of the list is at the length exactly. -/
theorem scan_index_bounds (signedChar missing_match : Bool) (gi gj : Genotype) (n : Nat) :
    (pair_windows signedChar missing_match gi gj n).next_missing_index_i
        ≤ (pair_windows signedChar missing_match gi gj (n + 1)).next_missing_index_i
    ∧ (pair_windows signedChar missing_match gi gj n).next_missing_index_j
        ≤ (pair_windows signedChar missing_match gi gj (n + 1)).next_missing_index_j
    ∧ (pair_windows signedChar missing_match gi gj n).next_missing_index_i
        ≤ XLENGTH gi.NA_posi
    ∧ (pair_windows signedChar missing_match gi gj n).next_missing_index_j
        ≤ XLENGTH gj.NA_posi
    ∧ (∀ (R_nap : RVec Int) (nap_length k : Nat) (s : Scan),
        mask_guard nap_length k (mask_loop missing_match R_nap nap_length k s) = false
        ∧ s.next_missing_index
            ≤ (mask_loop missing_match R_nap nap_length k s).next_missing_index)
    ∧ (pair_reads_i signedChar missing_match gi gj n).length
        = (pair_windows signedChar missing_match gi gj n).next_missing_index_i + 1
    ∧ (pair_reads_j signedChar missing_match gi gj n).length
        = (pair_windows signedChar missing_match gi gj n).next_missing_index_j + 1
    ∧ (pair_reads_i signedChar missing_match gi gj n).length ≤ XLENGTH gi.NA_posi + 1
    ∧ (pair_reads_j signedChar missing_match gi gj n).length ≤ XLENGTH gj.NA_posi + 1
    ∧ (∀ r ∈ pair_reads_i signedChar missing_match gi gj n,
        XLENGTH gi.NA_posi ≤ r → r = XLENGTH gi.NA_posi)
    ∧ (∀ r ∈ pair_reads_j signedChar missing_match gi gj n,
        XLENGTH gj.NA_posi ≤ r → r = XLENGTH gj.NA_posi) := by
  obtain ⟨a1, a2, a3, a4, a5, a6⟩ := pair_windows_index signedChar missing_match gi gj n
  have hI := (mask_while_index missing_match gi.NA_posi (XLENGTH gi.NA_posi) n
    (XLENGTH gi.NA_posi
      - (window_scan_i gi gj (pair_windows signedChar missing_match gi gj n)
          n).next_missing_index)
    (window_scan_i gi gj (pair_windows signedChar missing_match gi gj n) n)).1
  have hJ := (mask_while_index missing_match gj.NA_posi (XLENGTH gj.NA_posi) n
    (XLENGTH gj.NA_posi
      - (window_scan_j missing_match gi gj (pair_windows signedChar missing_match gi gj n)
          n).next_missing_index)
    (window_scan_j missing_match gi gj (pair_windows signedChar missing_match gi gj n) n)).1
  refine ⟨?_, ?_, a1, a2, ?_, a5, a6, by omega, by omega, ?_, ?_⟩
  · rw [pair_windows_succ, window_body_scans]
    exact hI
  · rw [pair_windows_succ, window_body_scans]
    exact hJ
  · intro R_nap nap_length k s
    exact ⟨mask_while_exit missing_match R_nap nap_length k _ s (le_refl _),
      (mask_while_index missing_match R_nap nap_length k _ s).1⟩
  · intro r hr hge
    have := a3 r hr
    omega
  · intro r hr hge
    have := a4 r hr
    omega

/-! ## The allele counters of `fill_loci` -/

set_option maxRecDepth 100000 in
theorem and_bit_small : ∀ x < 256, ∀ b < 8,
    x &&& (1 <<< b) = (if x.testBit b then 2 ^ b else 0)
    ∧ (x &&& (1 <<< b)) >>> b = (if x.testBit b then 1 else 0) := by
  decide

theorem fill_zygosity_lt (z : zygosity) :
    (fill_zygosity z).cx < 256 ∧ (fill_zygosity z).ca < 256 ∧ (fill_zygosity z).cn < 256 := by
  refine ⟨Nat.mod_lt _ (by norm_num), Nat.mod_lt _ (by norm_num), ?_⟩
  show char_not (z.c1 ||| z.c2) < 256
  unfold char_not
  omega

/-- What the bit loop of `fill_loci` adds at a site that is not the next missing one: 1 to
`n`; 1 to `h`, `d` and `r` at a heterozygous site; `2 * 2^bit` to `d` at a homozygous dominant
site and `2 * 2^bit` to `r` at a homozygous recessive one, the masked bit being multiplied by
2 without being shifted down. -/
theorem fill_loci_bit_counts (R_nap1 : RVec Int) (nap1_length : Nat) (z : zygosity)
    (locus_group : Nat) (st : LociState) (bit : Nat) (hbit : bit < 8)
    (hnm : st.next_missing_i ≠ (locus_group : Int) * 8 + (bit : Int)) :
    ((fill_loci_bit R_nap1 nap1_length (fill_zygosity z) locus_group st bit).loc
        (locus_group * 8 + bit)).n = (st.loc (locus_group * 8 + bit)).n + 1
    ∧ ((fill_loci_bit R_nap1 nap1_length (fill_zygosity z) locus_group st bit).loc
        (locus_group * 8 + bit)).h
        = (st.loc (locus_group * 8 + bit)).h
          + (if byte_state z.c1 z.c2 bit = ZygState.heterozygous then 1 else 0)
    ∧ ((fill_loci_bit R_nap1 nap1_length (fill_zygosity z) locus_group st bit).loc
        (locus_group * 8 + bit)).d
        = (st.loc (locus_group * 8 + bit)).d
          + (if byte_state z.c1 z.c2 bit = ZygState.heterozygous then 1
            else if byte_state z.c1 z.c2 bit = ZygState.homozygous_dominant then
              2 * (2 : Int) ^ bit
            else 0)
    ∧ ((fill_loci_bit R_nap1 nap1_length (fill_zygosity z) locus_group st bit).loc
        (locus_group * 8 + bit)).r
        = (st.loc (locus_group * 8 + bit)).r
          + (if byte_state z.c1 z.c2 bit = ZygState.heterozygous then 1
            else if byte_state z.c1 z.c2 bit = ZygState.homozygous_recessive then
              2 * (2 : Int) ^ bit
            else 0) := by
  obtain ⟨lx, la, ln⟩ := fill_zygosity_lt z
  obtain ⟨sx, sa, sn⟩ := fill_zygosity_state z bit hbit
  have bx := and_bit_small _ lx bit hbit
  have ba := and_bit_small _ la bit hbit
  have bn := and_bit_small _ ln bit hbit
  rw [sx] at bx
  rw [sa] at ba
  rw [sn] at bn
  simp only [fill_loci_bit, hnm, ne_eq, not_false_eq_true, if_true, bx.2, ba.1, bn.1]
  cases hs : byte_state z.c1 z.c2 bit <;> simp

/-- C21 fails on the code.  For the single genotype `loci_sample` and zeroed counters,
`fill_loci` leaves the missing site 0 untouched and adds `(d, r, h, n) = (1, 1, 1, 1)` at the
heterozygous site 3, as the claim says; but at the homozygous dominant site 1, which is not
missing, it adds 4 to `d` (the claim says 2), and at the homozygous recessive site 2 it adds 8
to `r` (the claim says 2), so these sites add 4 and 8 alleles to `d + r`, not 2. -/
theorem fill_loci_homozygous_counts :
    is_missing (VECTOR_ELT loci_sample 0) 1 = false
    ∧ zygosity_at (VECTOR_ELT loci_sample 0) 1 = ZygState.homozygous_dominant
    ∧ fill_loci (fun _ => ⟨0, 0, 0, 0⟩) loci_sample 1 = { d := 4, r := 0, h := 0, n := 1 }
    ∧ is_missing (VECTOR_ELT loci_sample 0) 2 = false
    ∧ zygosity_at (VECTOR_ELT loci_sample 0) 2 = ZygState.homozygous_recessive
    ∧ fill_loci (fun _ => ⟨0, 0, 0, 0⟩) loci_sample 2 = { d := 0, r := 8, h := 0, n := 1 }
    ∧ is_missing (VECTOR_ELT loci_sample 0) 3 = false
    ∧ zygosity_at (VECTOR_ELT loci_sample 0) 3 = ZygState.heterozygous
    ∧ fill_loci (fun _ => ⟨0, 0, 0, 0⟩) loci_sample 3 = { d := 1, r := 1, h := 1, n := 1 }
    ∧ is_missing (VECTOR_ELT loci_sample 0) 0 = true
    ∧ fill_loci (fun _ => ⟨0, 0, 0, 0⟩) loci_sample 0 = { d := 0, r := 0, h := 0, n := 0 } := by
  decide

/-! ## No test of the preconditions -/

/-- In a population of uniform length no pair unit reads a chromosome vector past its end,
whatever the missing-index lists. -/
theorem uniform_raw_reads_in_bounds (genlight : List Genotype) (L : Nat)
    (h : uniform_length genlight L) : raw_reads_in_bounds genlight := by
  intro i hi j hj
  have hi2 := h _ (VECTOR_ELT_mem genlight i hi)
  have hj2 := h _ (VECTOR_ELT_mem genlight j (by omega))
  omega

end Poppr
